import Mathlib

/-!
# Ocho damas: a shallow embedding of `v1.c`

The program enumerates the placements of eight queens on a chess board held
in a 64 bit word.  The embedding follows the C source function by function:

* `u64` values are natural numbers below `2 ^ 64`; a left shift is followed by
  `% 2 ^ 64`, a right shift needs no truncation, and `~ x` is `x ^^^ (2 ^ 64 - 1)`;
* the global table `filas` is a list of 42 words, built by `init_filas`;
* the two global counters and the text written to the standard output are the
  fields of `Estado`, threaded through `colocar`;
* `faltan` is an integer, as in the source, where it may be zero or negative;
  `siguiente` is a natural number, the program never passes a negative index;
* the counters are declared `int`: in `colocar` they are mathematical integers, the values
  that the program holds as long as no counter is incremented at `INT_MAX`, and
  `colocar_int` is `colocar` once more with the counters kept in the range of a 32 bit
  `int`; the two end in the same state when no counter passes `INT_MAX`
  (`colocar_int_exacto`), as in every search started from zero (`colocar_int_inicio`);
* `colocar` recurses and loops, so it is defined with a fuel argument
  (`colocar_fuel`, `mientras_fuel`) and `colocar` supplies enough of it;
* `hijos` lists the calls that one invocation of `colocar` makes, and `colocar_seguro` is
  a second copy of `colocar` in which `siguiente` is an integer and a shift or an index
  out of range, or the end of the fuel, is an error.
-/

namespace OchoDamas

/-! ## Data -/

/-- Global `tableros_iniciales[3]`. -/
def tableros_iniciales : List Nat :=
  [0xFFFFFFFFFFFFFFFF, 0xFEFFFFFFFFFFFF7E, 0xF07FFFFFFFFFFE7E]

/-- The function `init_filas`: the value of the global `filas[42]` once it has run.
The array starts zeroed (a C global) and the two loops store into it. -/
def init_filas : List Nat :=
  let filas := List.replicate 42 0
  let filas := (List.range 8).foldl
    (fun filas k =>
      let filas := filas.set k ((0x00000000000000FF <<< (k * 8)) % 2 ^ 64)
      filas.set (8 + k) ((0x0101010101010101 <<< k) % 2 ^ 64))
    filas
  let filas := filas.set 16 0x8040201008040201
  let filas := filas.set 17 0x0102040810204080
  (List.range 6).foldl
    (fun filas k =>
      let shift := 8 * (k + 1)
      let filas := filas.set (18 + k) ((filas.getD 16 0 <<< shift) % 2 ^ 64)
      let filas := filas.set (24 + k) (filas.getD 16 0 >>> shift)
      let filas := filas.set (30 + k) ((filas.getD 17 0 <<< shift) % 2 ^ 64)
      filas.set (36 + k) (filas.getD 17 0 >>> shift))
    filas

/-- The function `imprimir_tablero`: the characters it writes, in order. -/
def imprimir_tablero (t : Nat) : List Char :=
  (List.range 8).foldl
    (fun out y =>
      (List.range 8).foldl
        (fun out x => out ++ [if (t >>> (63 - (8 * y + x))) &&& 1 ≠ 0 then 'X' else '.'])
        out ++ ['\n'])
    []

/-- The two global counters and what `colocar` has written so far: one entry
per solution, the number printed after `Solucion` and the board handed to
`imprimir_tablero`.  The counters and the numbers printed are `int` in the source; the
fields hold integers, which `colocar` lets grow without bound and `colocar_int` keeps
between `INT_MIN` and `INT_MAX`. -/
structure Estado where
  llamadas_a_colocar : Int
  soluciones : Int
  salida : List (Int × Nat)
deriving DecidableEq, Repr

/-- The text of one entry of `Estado.salida`: `printf ("Solucion %d:\n", n)`
followed by `imprimir_tablero`. -/
def texto_solucion (e : Int × Nat) : List Char :=
  "Solucion ".toList ++ (toString e.1).toList ++ [':', '\n'] ++ imprimir_tablero e.2

/-- The inner `for (k = 0; k < 42; k++)` loop of `colocar`: the value of
`nuevo_posibles` when the loop ends. -/
def nuevo_posibles (filas : List Nat) (this_bit posibles : Nat) : Nat :=
  (List.range 42).foldl
    (fun nuevo_posibles k =>
      if filas.getD k 0 &&& this_bit ≠ 0 then
        nuevo_posibles &&& (filas.getD k 0 ^^^ (2 ^ 64 - 1))
      else nuevo_posibles)
    posibles

mutual
/-- The function `colocar` with a bound `fuel` on the nesting of calls and
loop iterations; with no fuel left the state is returned as it is. -/
def colocar_fuel (filas : List Nat) : Nat → Int → Nat → Nat → Nat → Estado → Estado
  | 0, _, _, _, _, st => st
  | fuel + 1, faltan, siguiente, colocadas, posibles, st =>
    let st := { st with llamadas_a_colocar := st.llamadas_a_colocar + 1 }
    if faltan ≤ 0 then
      { st with soluciones := st.soluciones + 1,
                salida := st.salida ++ [(st.soluciones + 1, colocadas)] }
    else mientras_fuel filas fuel faltan siguiente colocadas posibles st
/-- The loop `while (siguiente < 64)` of `colocar`. -/
def mientras_fuel (filas : List Nat) : Nat → Int → Nat → Nat → Nat → Estado → Estado
  | 0, _, _, _, _, st => st
  | fuel + 1, faltan, siguiente, colocadas, posibles, st =>
    if siguiente < 64 then
      let st :=
        if (posibles >>> siguiente) &&& 1 ≠ 0 then
          let this_bit := (1 <<< siguiente) % 2 ^ 64
          colocar_fuel filas fuel (faltan - 1) (siguiente + 1) (colocadas ||| this_bit)
            (nuevo_posibles filas this_bit posibles) st
        else st
      mientras_fuel filas fuel faltan (siguiente + 1) colocadas posibles st
    else st
end

/-- The function `colocar (faltan, siguiente, colocadas, posibles)`, run in
state `st` with the table `filas`.  Every call and every loop iteration raises
`siguiente` towards 64, so `2 * (64 - siguiente) + 1` units of fuel are never
used up (`colocar_fuel_estable`). -/
def colocar (filas : List Nat) (faltan : Int) (siguiente colocadas posibles : Nat)
    (st : Estado) : Estado :=
  colocar_fuel filas (2 * (64 - siguiente) + 1) faltan siguiente colocadas posibles st

/-- The state in which `main` starts each search: both counters zero. -/
def inicio : Estado := ⟨0, 0, []⟩

/-- The boards that a call of `colocar` in state `st` prints, in order. -/
def reportados (filas : List Nat) (faltan : Int) (siguiente colocadas posibles : Nat)
    (st : Estado) : List Nat :=
  ((colocar filas faltan siguiente colocadas posibles st).salida.drop st.salida.length).map
    Prod.snd

/-- The boards printed by the call `colocar (8, 0, 0ULL, m)` that `main` makes
after `init_filas`, with both counters at zero. -/
def busqueda (m : Nat) : List Nat :=
  reportados init_filas 8 0 0 m inicio


/-! ## Geometry of the board

Square `i` (bit `i` of a board) stands at row `i / 8` and column `i % 8`. -/

/-- Two squares share a row, a column or a diagonal.  A square attacks itself
in this sense. -/
def se_atacan (i j : Nat) : Prop :=
  i / 8 = j / 8 ∨ i % 8 = j % 8 ∨
    |((i / 8 : Nat) : Int) - ((j / 8 : Nat) : Int)| = |((i % 8 : Nat) : Int) - ((j % 8 : Nat) : Int)|

/-- The same relation computed on natural numbers. -/
def ataca (i j : Nat) : Bool :=
  decide (i / 8 = j / 8) || decide (i % 8 = j % 8) ||
    decide (i / 8 + j % 8 = j / 8 + i % 8) || decide (i / 8 + i % 8 = j / 8 + j % 8)

/-- The number of squares of the board `b`. -/
def cuenta_bits (b : Nat) : Nat :=
  ((List.range 64).filter (fun i => b.testBit i)).length

/-- A board `b` is a placement of eight queens on squares of `m`, no two of
them on a common row, column or diagonal. -/
def es_solucion (m b : Nat) : Prop :=
  b < 2 ^ 64 ∧ cuenta_bits b = 8 ∧ (∀ i, b.testBit i = true → m.testBit i = true) ∧
    ∀ i j, b.testBit i = true → b.testBit j = true → i ≠ j → ¬ se_atacan i j

/-! ## The search as a function

`colocar` only adds to the counters and appends to the output.  What one run
of the loop adds is a function of the arguments alone. -/

/-- The union of the entries of `filas` that meet `this_bit`. -/
def lineas_de (filas : List Nat) (this_bit : Nat) : Nat :=
  filas.foldl (fun a f => if f &&& this_bit ≠ 0 then a ||| f else a) 0

/-- The boards printed by the loop of `colocar` when it scans the last `resto`
squares, `64 - resto` to `63`. -/
def soluciones_desde (filas : List Nat) : Nat → Int → Nat → Nat → List Nat
  | 0, _, _, _ => []
  | resto + 1, faltan, colocadas, posibles =>
    (if (posibles >>> (63 - resto)) &&& 1 ≠ 0 then
      if faltan - 1 ≤ 0 then [colocadas ||| (1 <<< (63 - resto)) % 2 ^ 64]
      else soluciones_desde filas resto (faltan - 1) (colocadas ||| (1 <<< (63 - resto)) % 2 ^ 64)
        (nuevo_posibles filas ((1 <<< (63 - resto)) % 2 ^ 64) posibles)
    else []) ++ soluciones_desde filas resto faltan colocadas posibles

/-- The number of calls of `colocar` made, directly or not, by the loop of
`colocar` when it scans the last `resto` squares. -/
def llamadas_desde (filas : List Nat) : Nat → Int → Nat → Nat
  | 0, _, _ => 0
  | resto + 1, faltan, posibles =>
    (if (posibles >>> (63 - resto)) &&& 1 ≠ 0 then
      if faltan - 1 ≤ 0 then 1
      else 1 + llamadas_desde filas resto (faltan - 1)
        (nuevo_posibles filas ((1 <<< (63 - resto)) % 2 ^ 64) posibles)
    else 0) + llamadas_desde filas resto faltan posibles

/-- The entries that `colocar` appends for the boards `l` when the solution
counter stands at `s`. -/
def numerar (s : Int) : List Nat → List (Int × Nat)
  | [] => []
  | b :: l => (s + 1, b) :: numerar (s + 1) l

/-- The state after `n` more calls that printed the boards `l`. -/
def agregar (st : Estado) (n : Nat) (l : List Nat) : Estado :=
  { llamadas_a_colocar := st.llamadas_a_colocar + n,
    soluciones := st.soluciones + l.length,
    salida := st.salida ++ numerar st.soluciones l }

/-! ## An evaluator for the kernel

`explorar` computes `llamadas_desde` and `soluciones_desde` for the table of
`init_filas` in one pass, written with the primitive operations on `Nat` so
that it reduces quickly.  It jumps to the next available square instead of
testing the squares one by one. -/

/-- The squares attacked from square `i`, by arithmetic on the two long diagonals. -/
def ataque (i : Nat) : Nat :=
  Nat.lor
    (Nat.lor (Nat.shiftLeft 0xFF (Nat.sub i (Nat.mod i 8)))
      (Nat.shiftLeft 0x0101010101010101 (Nat.mod i 8)))
    (Nat.lor
      (Nat.mod
        (Nat.shiftRight (Nat.shiftLeft 0x8040201008040201 (Nat.sub i (Nat.mod i 8)))
          (Nat.mul 8 (Nat.mod i 8)))
        0x10000000000000000)
      (Nat.mod
        (Nat.shiftRight
          (Nat.shiftLeft 0x0102040810204080 (Nat.add (Nat.sub i (Nat.mod i 8)) (Nat.mul 8 (Nat.mod i 8))))
          56)
        0x10000000000000000))

/-- A guess of the number of zero bits below the lowest set bit of `r`: the
number of ones of `gcd r (2 ^ 64) - 1`, counted in parallel. -/
def salto (r : Nat) : Nat :=
  (fun x =>
    (fun x =>
      (fun x =>
        Nat.shiftRight
          (Nat.mod
            (Nat.mul (Nat.land (Nat.add x (Nat.shiftRight x 4)) 0x0f0f0f0f0f0f0f0f)
              0x0101010101010101)
            0x10000000000000000)
          56)
        (Nat.add (Nat.land x 0x3333333333333333)
          (Nat.land (Nat.shiftRight x 2) 0x3333333333333333)))
      (Nat.sub x (Nat.land (Nat.shiftRight x 1) 0x5555555555555555)))
    (Nat.sub (Nat.gcd r 0x10000000000000000) 1)

/-- The square the scan moves to: `siguiente + d` when the `d` squares from
`siguiente` on are not available in `r = posibles >>> siguiente`, else `siguiente`. -/
def destino (r siguiente d : Nat) : Nat :=
  Bool.rec siguiente (Nat.add siguiente d) (Nat.beq (Nat.mod r (Nat.pow 2 d)) 0)

/-- Two results `calls :: boards` put together. -/
def combinar (a b : List Nat) : List Nat :=
  List.rec (motive := fun _ => List Nat) []
    (fun c1 s1 _ =>
      List.rec (motive := fun _ => List Nat) []
        (fun c2 s2 _ => Nat.add c1 c2 :: List.rec (motive := fun _ => List Nat) s2 (fun x _ r => x :: r) s1) b)
    a

/-- The number of calls made by the loop of `colocar`, followed by the boards it prints. -/
def explorar (fuel : Nat) : Nat → Nat → Nat → Nat → List Nat :=
  Nat.rec (motive := fun _ => Nat → Nat → Nat → Nat → List Nat) (fun _ _ _ _ => [0])
    (fun _ ih faltan siguiente colocadas posibles =>
      Bool.rec
        (Nat.rec (motive := fun _ => List Nat) [0] (fun i _ =>
          Bool.rec
            (combinar
              (Bool.rec
                (Bool.rec
                  (combinar [1]
                    (ih (Nat.sub faltan 1) (Nat.succ i) (Nat.lor colocadas (Nat.pow 2 i))
                      (Nat.land posibles (Nat.xor (ataque i) 0xFFFFFFFFFFFFFFFF))))
                  [1, Nat.lor colocadas (Nat.pow 2 i)]
                  (Nat.ble faltan 1))
                [0]
                (Nat.beq (Nat.land (Nat.shiftRight posibles i) 1) 0))
              (ih faltan (Nat.succ i) colocadas posibles))
            [0]
            (Nat.ble 64 i))
          (Nat.succ (destino (Nat.shiftRight posibles siguiente) siguiente
            (salto (Nat.shiftRight posibles siguiente)))))
        [0]
        (Nat.beq (Nat.shiftRight posibles siguiente) 0))
    fuel

/-- What square `i` adds to the first loop of the search on `m`: the calls
below it and the boards they print. -/
def aporte (m i : Nat) : List Nat :=
  Bool.rec
    (combinar [1]
      (explorar 64 7 (Nat.succ i) (Nat.pow 2 i) (Nat.land m (Nat.xor (ataque i) 0xFFFFFFFFFFFFFFFF))))
    [0]
    (Nat.beq (Nat.land (Nat.shiftRight m i) 1) 0)

/-! ## Symmetries of the board -/

/-- The board `b` with every square `i` moved to square `f i`. -/
def mover (f : Nat → Nat) (b : Nat) : Nat :=
  (List.range 64).foldl (fun acc i => if b.testBit i then acc ||| 2 ^ f i else acc) 0

/-- A quarter turn: the square at row `r`, column `c` goes to row `c`, column `7 - r`. -/
def rotar (b : Nat) : Nat :=
  mover (fun i => 8 * (i % 8) + (7 - i / 8)) b

/-- A reflection: the square at row `r`, column `c` goes to row `r`, column `7 - c`. -/
def reflejar (b : Nat) : Nat :=
  mover (fun i => 8 * (i / 8) + (7 - i % 8)) b

/-- The board `b` turned by 0, 90, 180 and 270 degrees. -/
def giros (b : Nat) : List Nat :=
  [b, rotar b, rotar (rotar b), rotar (rotar (rotar b))]

/-- The images of the board `b` under the eight symmetries of the square: the four
turns of `b` and the four turns of its reflection. -/
def simetrias (b : Nat) : List Nat :=
  giros b ++ giros (reflejar b)

/-- The four corner squares, bits 0, 7, 56 and 63. -/
def ESQUINAS : Nat := 0x8100000000000081

/-- The boards of a table of results, in order. -/
def encontradas (t : List (List Nat)) : List Nat :=
  (t.map List.tail).flatten

/-! ## The results of the three searches

For each of the three boards of `tableros_iniciales`, one entry per square `i`
of the first loop: the number of calls of `colocar` made for that square, then
the boards printed by them.  The theorems `aportes_*` check them against `aporte`. -/

/-- The calls and the boards of the search on `0xFFFFFFFFFFFFFFFF` (all 64 squares), square by square. -/
def tabla_todas : List (List Nat) :=
  [
    [8237, 577094088726155265, 1153493525606703105, 292736725095563265, 297246382237958145],
    [9369, 1170937021957408770, 585608706247364610, 297378317328191490, 1154188177435598850,
     1170944703579824130, 576760369759141890, 297246377942990850, 594492760197726210],
    [10172, 2308097558079078660, 2308165184214142980, 90080928227004420, 2341874039636627460,
     2306476332348870660, 594476800348921860, 1188959103087681540, 612490718627373060,
     162147728544505860, 90090134523355140, 148689190832316420, 577094139745673220,
     1170937037029646340, 2308095979406114820, 1153211915263164420, 1153519644301623300],
    [10303, 2307039288603181320, 162134124219334920, 4612813157433344520, 1153343854582170120,
     76702068663910920, 297378317462405640, 2306970283786895880, 4616194020941496840,
     4612952664681029640, 1154048778945175560, 148689160817877000, 297239845296750600,
     2306142087114145800, 9224499173746819080, 180179173830049800, 1170938239645745160,
     297240049576149000, 2306476332274450440],
    [10303, 306247523977658640, 2307039286597255440, 577094088726151440, 4611972441743819280,
     81205549035160080, 324268244160479760, 2307039312249618960, 4613940567557080080,
     585608698710262800, 153123761862738960, 146402722084634640, 297378321619042320,
     2306970558522343440, 9225624953896976400, 612490666550902800, 153263142016139280,
     4612284169950101520, 297240049324949520],
    [10172, 594480098649833760, 612507158709273120, 292874747648148000, 577164509538485280,
     1170938138646873120, 4613940088131355680, 9223943788270978080, 4612257770917332000,
     1153343751469401120, 576760369259742240, 1153625196482004000, 306247523708766240,
     288582290739693600, 9223952596195084320, 292736724579125280, 292804348952608800],
    [9369, 1153493390239990080, 2306987051079696960, 1188959102083007040, 577041844735640640,
     585469119831213120, 2306970558656546880, 1154048643611887680, 577164577201197120],
    [8237, 2306986776201790080, 2308165182134682240, 594492752125822080, 1170938239645714560],
    [3255],
    [3452],
    [3697],
    [3719],
    [3719],
    [3697],
    [3452],
    [3255],
    [1241],
    [1281],
    [1217],
    [1271],
    [1271],
    [1217],
    [1281],
    [1241],
    [440],
    [431],
    [397],
    [378],
    [378],
    [397],
    [431],
    [440],
    [131],
    [128],
    [116],
    [103],
    [103],
    [116],
    [128],
    [131],
    [34],
    [30],
    [26],
    [27],
    [27],
    [26],
    [30],
    [34],
    [7],
    [6],
    [6],
    [6],
    [6],
    [6],
    [6],
    [7],
    [1],
    [1],
    [1],
    [1],
    [1],
    [1],
    [1],
    [1]
  ]

/-- The calls and the boards of the search on `0xFEFFFFFFFFFFFF7E` (three corners removed), square by square. -/
def tabla_esquinas : List (List Nat) :=
  [
    [0],
    [8626, 1170937021957408770, 585608706247364610, 297378317328191490, 1154188177435598850,
     1170944703579824130, 576760369759141890, 297246377942990850, 594492760197726210],
    [9351, 2308097558079078660, 2308165184214142980, 2341874039636627460, 2306476332348870660,
     594476800348921860, 1188959103087681540, 612490718627373060, 162147728544505860,
     148689190832316420, 577094139745673220, 1170937037029646340, 2308095979406114820,
     1153211915263164420, 1153519644301623300],
    [9408, 2307039288603181320, 162134124219334920, 4612813157433344520, 1153343854582170120,
     297378317462405640, 2306970283786895880, 4616194020941496840, 4612952664681029640,
     1154048778945175560, 148689160817877000, 297239845296750600, 2306142087114145800,
     9224499173746819080, 180179173830049800, 1170938239645745160, 297240049576149000,
     2306476332274450440],
    [9476, 306247523977658640, 2307039286597255440, 577094088726151440, 4611972441743819280,
     324268244160479760, 2307039312249618960, 4613940567557080080, 585608698710262800,
     153123761862738960, 146402722084634640, 297378321619042320, 2306970558522343440,
     9225624953896976400, 612490666550902800, 153263142016139280, 4612284169950101520,
     297240049324949520],
    [9269, 594480098649833760, 612507158709273120, 292874747648148000, 577164509538485280,
     1170938138646873120, 4613940088131355680, 9223943788270978080, 4612257770917332000,
     1153343751469401120, 576760369259742240, 1153625196482004000, 306247523708766240,
     288582290739693600, 9223952596195084320, 292736724579125280, 292804348952608800],
    [8576, 1153493390239990080, 2306987051079696960, 1188959102083007040, 577041844735640640,
     585469119831213120, 2306970558656546880, 1154048643611887680, 577164577201197120],
    [0],
    [3255],
    [3138],
    [3329],
    [3392],
    [3333],
    [3349],
    [3452],
    [2984],
    [1241],
    [1134],
    [1082],
    [1128],
    [1135],
    [1217],
    [1152],
    [1130],
    [440],
    [378],
    [335],
    [330],
    [378],
    [353],
    [382],
    [387],
    [131],
    [104],
    [100],
    [103],
    [90],
    [104],
    [113],
    [114],
    [34],
    [24],
    [26],
    [23],
    [23],
    [22],
    [26],
    [29],
    [7],
    [6],
    [5],
    [5],
    [5],
    [5],
    [5],
    [6],
    [0],
    [1],
    [1],
    [1],
    [1],
    [1],
    [1],
    [1]
  ]

/-- The calls and the boards of the search on `0xF07FFFFFFFFFFE7E` (eight squares removed), square by square. -/
def tabla_agresivo : List (List Nat) :=
  [
    [0],
    [6902, 1170937021957408770, 1154188177435598850, 1170944703579824130],
    [6131, 2308165184214142980, 2306476332348870660, 1170937037029646340, 2308095979406114820,
     1153211915263164420, 1153519644301623300],
    [6039, 4612813157433344520, 1153343854582170120, 2306970283786895880, 4616194020941496840,
     4612952664681029640, 1154048778945175560, 2306142087114145800, 9224499173746819080,
     1170938239645745160, 2306476332274450440],
    [5418, 4611972441743819280, 2307039312249618960, 4613940567557080080, 2306970558522343440,
     9225624953896976400, 4612284169950101520],
    [5213, 1170938138646873120, 4613940088131355680, 9223943788270978080, 4612257770917332000,
     1153343751469401120, 1153625196482004000, 9223952596195084320],
    [4786, 2306987051079696960, 2306970558656546880, 1154048643611887680],
    [0],
    [0],
    [2210],
    [2658],
    [2459],
    [2083],
    [2059],
    [2012],
    [2250],
    [738],
    [768],
    [723],
    [876],
    [705],
    [704],
    [725],
    [865],
    [250],
    [253],
    [232],
    [207],
    [243],
    [227],
    [230],
    [294],
    [80],
    [63],
    [54],
    [60],
    [51],
    [81],
    [74],
    [74],
    [21],
    [16],
    [14],
    [16],
    [13],
    [14],
    [17],
    [17],
    [5],
    [5],
    [5],
    [4],
    [3],
    [2],
    [2],
    [0],
    [0],
    [0],
    [0],
    [0],
    [1],
    [1],
    [1],
    [1]
  ]

/-! ## The invocations of `colocar` -/

/-- The arguments of one invocation of `colocar`. -/
structure Marco where
  faltan : Int
  siguiente : Nat
  colocadas : Nat
  posibles : Nat
deriving DecidableEq, Repr

/-- The calls of `colocar` made directly by the loop of `colocar` when it scans the last
`resto` squares, in order: one for each available square `i`, with the arguments
`faltan - 1`, `i + 1`, `colocadas | this_bit` and `nuevo_posibles`. -/
def hijos_desde (filas : List Nat) : Nat → Int → Nat → Nat → List Marco
  | 0, _, _, _ => []
  | resto + 1, faltan, colocadas, posibles =>
    (if (posibles >>> (63 - resto)) &&& 1 ≠ 0 then
      [{ faltan := faltan - 1, siguiente := 63 - resto + 1,
         colocadas := colocadas ||| (1 <<< (63 - resto)) % 2 ^ 64,
         posibles := nuevo_posibles filas ((1 <<< (63 - resto)) % 2 ^ 64) posibles }]
    else []) ++ hijos_desde filas resto faltan colocadas posibles

/-- The calls of `colocar` made directly by the invocation `f`: none when
`faltan <= 0`, else those of its loop from `siguiente` on. -/
def hijos (filas : List Nat) (f : Marco) : List Marco :=
  if f.faltan ≤ 0 then []
  else hijos_desde filas (64 - f.siguiente) f.faltan f.colocadas f.posibles

/-- The function `colocar` applied to the arguments `f`. -/
def colocar_en (filas : List Nat) (f : Marco) (st : Estado) : Estado :=
  colocar filas f.faltan f.siguiente f.colocadas f.posibles st

/-- The invocation `f` is reached from the invocation `raiz` through `n` nested calls. -/
inductive Alcanzable (filas : List Nat) (raiz : Marco) : Nat → Marco → Prop
  | inicial : Alcanzable filas raiz 0 raiz
  | llamada {n : Nat} {p h : Marco} :
      Alcanzable filas raiz n p → h ∈ hijos filas p → Alcanzable filas raiz (n + 1) h

/-- The squares of the board `b`, in ascending order. -/
def casillas (b : Nat) : List Nat :=
  (List.range 64).filter (fun i => b.testBit i)

/-! ## The program with its undefined behaviour made explicit

In C a shift of a 64 bit word by a negative amount or by 64 or more is undefined,
and so is an access to `filas[k]` outside `0 .. 41`.  The functions below follow the
source once more, with the shift amounts and the indices as integers, and fail where
the C program would leave its defined behaviour, or when the fuel runs out. -/

/-- The ways in which a checked run stops early. -/
inductive Fallo where
  | sin_fuel
  | desplazamiento
  | indice
deriving DecidableEq, Repr

/-- The shift `x << s` of a `u64`, defined for `0 <= s <= cota`. -/
def desplazar_izq (cota : Nat) (x : Nat) (s : Int) : Except Fallo Nat :=
  if 0 ≤ s ∧ s ≤ cota then .ok ((x <<< s.toNat) % 2 ^ 64) else .error .desplazamiento

/-- The shift `x >> s` of a `u64`, defined for `0 <= s <= cota`. -/
def desplazar_der (cota : Nat) (x : Nat) (s : Int) : Except Fallo Nat :=
  if 0 ≤ s ∧ s ≤ cota then .ok (x >>> s.toNat) else .error .desplazamiento

/-- The read of `filas[k]`, defined for `0 <= k < 42`. -/
def leer_fila (filas : List Nat) (k : Int) : Except Fallo Nat :=
  if 0 ≤ k ∧ k < 42 then .ok (filas.getD k.toNat 0) else .error .indice

/-- The store `filas[k] = v`, defined for `0 <= k < 42`. -/
def escribir_fila (filas : List Nat) (k : Int) (v : Nat) : Except Fallo (List Nat) :=
  if 0 ≤ k ∧ k < 42 then .ok (filas.set k.toNat v) else .error .indice

/-- The function `init_filas`, every shift amount checked against `cota`. -/
def init_filas_seguro (cota : Nat) : Except Fallo (List Nat) := do
  let filas := List.replicate 42 0
  let filas ← (List.range 8).foldlM
    (fun filas (k : Nat) => do
      let fila ← desplazar_izq cota 0x00000000000000FF ((k : Int) * 8)
      let filas ← escribir_fila filas k fila
      let columna ← desplazar_izq cota 0x0101010101010101 k
      escribir_fila filas (8 + (k : Int)) columna)
    filas
  let filas ← escribir_fila filas 16 0x8040201008040201
  let filas ← escribir_fila filas 17 0x0102040810204080
  (List.range 6).foldlM
    (fun filas (k : Nat) => do
      let shift : Int := 8 * ((k : Int) + 1)
      let f16 ← leer_fila filas 16
      let v ← desplazar_izq cota f16 shift
      let filas ← escribir_fila filas (18 + (k : Int)) v
      let f16 ← leer_fila filas 16
      let v ← desplazar_der cota f16 shift
      let filas ← escribir_fila filas (24 + (k : Int)) v
      let f17 ← leer_fila filas 17
      let v ← desplazar_izq cota f17 shift
      let filas ← escribir_fila filas (30 + (k : Int)) v
      let f17 ← leer_fila filas 17
      let v ← desplazar_der cota f17 shift
      escribir_fila filas (36 + (k : Int)) v)
    filas

/-- The function `imprimir_tablero`, every shift amount checked against `cota`. -/
def imprimir_tablero_seguro (cota : Nat) (t : Nat) : Except Fallo (List Char) :=
  (List.range 8).foldlM
    (fun out (y : Nat) => do
      let out ← (List.range 8).foldlM
        (fun out (x : Nat) => do
          let r ← desplazar_der cota t (63 - (8 * (y : Int) + (x : Int)))
          pure (out ++ [if r &&& 1 ≠ 0 then 'X' else '.']))
        out
      pure (out ++ ['\n']))
    []

/-- The inner loop of `colocar`, every index checked. -/
def nuevo_posibles_seguro (filas : List Nat) (this_bit posibles : Nat) : Except Fallo Nat :=
  (List.range 42).foldlM
    (fun nuevo_posibles (k : Nat) => do
      let f ← leer_fila filas k
      pure (if f &&& this_bit ≠ 0 then nuevo_posibles &&& (f ^^^ (2 ^ 64 - 1))
        else nuevo_posibles))
    posibles

mutual
/-- The function `colocar`, with `siguiente` an integer, every shift and every index
checked; it fails with `sin_fuel` when the bound `fuel` on calls and iterations is reached. -/
def colocar_seguro (filas : List Nat) :
    Nat → Int → Int → Nat → Nat → Estado → Except Fallo Estado
  | 0, _, _, _, _, _ => .error .sin_fuel
  | fuel + 1, faltan, siguiente, colocadas, posibles, st =>
    let st := { st with llamadas_a_colocar := st.llamadas_a_colocar + 1 }
    if faltan ≤ 0 then
      .ok { st with soluciones := st.soluciones + 1,
                    salida := st.salida ++ [(st.soluciones + 1, colocadas)] }
    else mientras_seguro filas fuel faltan siguiente colocadas posibles st
/-- The loop `while (siguiente < 64)` of `colocar`, checked. -/
def mientras_seguro (filas : List Nat) :
    Nat → Int → Int → Nat → Nat → Estado → Except Fallo Estado
  | 0, _, _, _, _, _ => .error .sin_fuel
  | fuel + 1, faltan, siguiente, colocadas, posibles, st =>
    if siguiente < 64 then do
      let r ← desplazar_der 63 posibles siguiente
      let st ←
        if r &&& 1 ≠ 0 then do
          let this_bit ← desplazar_izq 63 1 siguiente
          let nuevo ← nuevo_posibles_seguro filas this_bit posibles
          colocar_seguro filas fuel (faltan - 1) (siguiente + 1) (colocadas ||| this_bit)
            nuevo st
        else pure st
      mientras_seguro filas fuel faltan (siguiente + 1) colocadas posibles st
    else .ok st
end

/-! ## The counters as `int`

`llamadas_a_colocar` and `soluciones` are declared `int`.  `colocar` above keeps them as
mathematical integers: that is the value the program holds as long as no counter is
incremented at `INT_MAX`.  The functions below follow the source once more with the
counters kept in the range of a 32 bit `int`.  ISO C leaves the increment of `INT_MAX`
undefined; the compiled program goes on with `INT_MIN`, the sum reduced modulo `2 ^ 32`,
and that is what `incrementar` does.  Below `INT_MAX` the increment adds one on every
reading (`incrementar_eq`). -/

/-- The largest value of an `int`. -/
def INT_MAX : Int := 2147483647

/-- The least value of an `int`. -/
def INT_MIN : Int := -2147483648

/-- The `int` that holds the integer `x` reduced modulo `2 ^ 32`. -/
def a_int (x : Int) : Int :=
  (x + 2147483648) % 4294967296 - 2147483648

/-- The statement `x++` on an `int` variable: the new value of `x`. -/
def incrementar (x : Int) : Int :=
  a_int (x + 1)

mutual
/-- The function `colocar` with both counters as `int`, with a bound `fuel` on the nesting
of calls and loop iterations. -/
def colocar_int_fuel (filas : List Nat) : Nat → Int → Nat → Nat → Nat → Estado → Estado
  | 0, _, _, _, _, st => st
  | fuel + 1, faltan, siguiente, colocadas, posibles, st =>
    let st := { st with llamadas_a_colocar := incrementar st.llamadas_a_colocar }
    if faltan ≤ 0 then
      let st := { st with soluciones := incrementar st.soluciones }
      { st with salida := st.salida ++ [(st.soluciones, colocadas)] }
    else mientras_int_fuel filas fuel faltan siguiente colocadas posibles st
/-- The loop `while (siguiente < 64)` of `colocar`, with both counters as `int`. -/
def mientras_int_fuel (filas : List Nat) : Nat → Int → Nat → Nat → Nat → Estado → Estado
  | 0, _, _, _, _, st => st
  | fuel + 1, faltan, siguiente, colocadas, posibles, st =>
    if siguiente < 64 then
      let st :=
        if (posibles >>> siguiente) &&& 1 ≠ 0 then
          let this_bit := (1 <<< siguiente) % 2 ^ 64
          colocar_int_fuel filas fuel (faltan - 1) (siguiente + 1) (colocadas ||| this_bit)
            (nuevo_posibles filas this_bit posibles) st
        else st
      mientras_int_fuel filas fuel faltan (siguiente + 1) colocadas posibles st
    else st
end

/-- The function `colocar (faltan, siguiente, colocadas, posibles)` with both counters as
`int`, run in state `st` with the table `filas`; the fuel is that of `colocar`
(`colocar_int_fuel_estable`). -/
def colocar_int (filas : List Nat) (faltan : Int) (siguiente colocadas posibles : Nat)
    (st : Estado) : Estado :=
  colocar_int_fuel filas (2 * (64 - siguiente) + 1) faltan siguiente colocadas posibles st

/-- The boards that a call of `colocar_int` in state `st` prints, in order. -/
def reportados_int (filas : List Nat) (faltan : Int) (siguiente colocadas posibles : Nat)
    (st : Estado) : List Nat :=
  ((colocar_int filas faltan siguiente colocadas posibles st).salida.drop st.salida.length).map
    Prod.snd

/-- Both counters of the state `st` are values of an `int`. -/
def en_rango (st : Estado) : Prop :=
  INT_MIN ≤ st.llamadas_a_colocar ∧ st.llamadas_a_colocar ≤ INT_MAX ∧
    INT_MIN ≤ st.soluciones ∧ st.soluciones ≤ INT_MAX

/-- The `int` variable `x` after `n` statements `x++`. -/
def sumar_int (x : Int) : Nat → Int
  | 0 => x
  | n + 1 => sumar_int (incrementar x) n

/-- The entries that `colocar_int` appends for the boards `l` when the solution counter
stands at `s`. -/
def numerar_int (s : Int) : List Nat → List (Int × Nat)
  | [] => []
  | b :: l => (incrementar s, b) :: numerar_int (incrementar s) l

/-- The state after `n` more calls of `colocar_int` that printed the boards `l`. -/
def agregar_int (st : Estado) (n : Nat) (l : List Nat) : Estado :=
  { llamadas_a_colocar := sumar_int st.llamadas_a_colocar n,
    soluciones := sumar_int st.soluciones l.length,
    salida := st.salida ++ numerar_int st.soluciones l }

/-! ## Bits -/

theorem bit_probado (x i : Nat) : ((x >>> i) &&& 1 ≠ 0) ↔ x.testBit i = true := by
  have h : x.testBit i = (1 &&& (x >>> i) != 0) := rfl
  rw [h, Nat.land_comm]
  simp

theorem uno_desplazado {i : Nat} (hi : i < 64) : (1 <<< i) % 2 ^ 64 = 2 ^ i := by
  rw [Nat.shiftLeft_eq, Nat.one_mul]
  exact Nat.mod_eq_of_lt (Nat.pow_lt_pow_right (by decide) hi)

theorem testBit_alto {x j : Nat} (hx : x < 2 ^ 64) (hj : 64 ≤ j) : x.testBit j = false :=
  Nat.testBit_lt_two_pow (lt_of_lt_of_le hx (Nat.pow_le_pow_right (by decide) hj))

theorem testBit_menor {x j : Nat} (hx : x < 2 ^ 64) (h : x.testBit j = true) : j < 64 := by
  by_contra hj
  rw [testBit_alto hx (by omega)] at h
  exact Bool.noConfusion h

theorem testBit_todas (j : Nat) : Nat.testBit 18446744073709551615 j = decide (j < 64) := by
  have h : (18446744073709551615 : Nat) = 2 ^ 64 - 1 := by norm_num
  rw [h, Nat.testBit_two_pow_sub_one]

/-! ## The table -/

theorem init_filas_eq : init_filas =
    [255, 65280, 16711680, 4278190080, 1095216660480, 280375465082880, 71776119061217280,
      18374686479671623680, 72340172838076673, 144680345676153346, 289360691352306692,
      578721382704613384, 1157442765409226768, 2314885530818453536, 4629771061636907072,
      9259542123273814144, 9241421688590303745, 72624976668147840, 4620710844295151872,
      2310355422147575808, 1155177711073755136, 577588855528488960, 288794425616760832,
      144396663052566528, 36099303471055874, 141012904183812, 550831656968, 2151686160,
      8405024, 32832, 145249953336295424, 290499906672525312, 580999813328273408,
      1161999622361579520, 2323998145211531264, 4647714815446351872, 283691315109952,
      1108169199648, 4328785936, 16909320, 66052, 258] := by
  decide!

theorem init_filas_length : init_filas.length = 42 := by
  rw [init_filas_eq]; rfl

/-! ## The inner loop of `colocar` -/

theorem map_getD_range (l : List Nat) : (List.range l.length).map (fun k => l.getD k 0) = l := by
  apply List.ext_getElem
  · simp
  · intro n h1 h2
    simp [List.getD_eq_getElem?_getD, List.getElem?_eq_getElem h2]

theorem nuevo_posibles_foldl (filas : List Nat) (h : filas.length = 42) (b pos : Nat) :
    nuevo_posibles filas b pos =
      filas.foldl (fun np f => if f &&& b ≠ 0 then np &&& (f ^^^ (2 ^ 64 - 1)) else np) pos := by
  unfold nuevo_posibles
  conv_rhs => rw [← map_getD_range filas, h]
  rw [List.foldl_map]

theorem foldl_quitar_testBit (fs : List Nat) (b j : Nat) (hj : j < 64) :
    ∀ pos, (fs.foldl (fun np f => if f &&& b ≠ 0 then np &&& (f ^^^ (2 ^ 64 - 1)) else np) pos).testBit j =
      (pos.testBit j && fs.all (fun f => decide (f &&& b = 0) || !f.testBit j)) := by
  induction fs with
  | nil => intro pos; simp
  | cons f fs ih =>
    intro pos
    rw [List.foldl_cons, ih]
    by_cases hf : f &&& b = 0
    · simp [hf]
    · simp [hf, testBit_todas, hj, Bool.and_assoc]

theorem foldl_lineas_testBit (fs : List Nat) (b j : Nat) :
    ∀ a, (fs.foldl (fun a f => if f &&& b ≠ 0 then a ||| f else a) a).testBit j =
      (a.testBit j || fs.any (fun f => !decide (f &&& b = 0) && f.testBit j)) := by
  induction fs with
  | nil => intro a; simp
  | cons f fs ih =>
    intro a
    rw [List.foldl_cons, ih]
    by_cases hf : f &&& b = 0
    · simp [hf]
    · simp [hf, Bool.or_assoc]

theorem nuevo_posibles_testBit (filas : List Nat) (h : filas.length = 42) (b pos j : Nat)
    (hj : j < 64) :
    (nuevo_posibles filas b pos).testBit j = (pos.testBit j && !(lineas_de filas b).testBit j) := by
  rw [nuevo_posibles_foldl filas h, foldl_quitar_testBit _ _ _ hj]
  unfold lineas_de
  rw [foldl_lineas_testBit]
  congr 1
  simp only [Nat.zero_testBit, Bool.false_or]
  rw [List.any_eq_not_all_not, Bool.not_not]
  congr 1
  funext f
  cases decide (f &&& b = 0) <;> cases f.testBit j <;> rfl

theorem nuevo_posibles_le (filas : List Nat) (h : filas.length = 42) (b pos : Nat) :
    nuevo_posibles filas b pos ≤ pos := by
  rw [nuevo_posibles_foldl filas h]
  generalize filas = fs
  induction fs generalizing pos with
  | nil => exact le_refl _
  | cons f fs ih =>
    rw [List.foldl_cons]
    split
    · exact le_trans (ih _) Nat.and_le_left
    · exact ih _

/-! ## The lines through a square -/

theorem lineas_ataque : ∀ i < 64, lineas_de init_filas (2 ^ i) = ataque i := by
  decide!

theorem ataque_testBit : ∀ i < 64, ∀ j < 64, (ataque i).testBit j = ataca i j := by
  decide!

theorem ataque_lt : ∀ i < 64, ataque i < 2 ^ 64 := by
  decide!

theorem ataca_iff (i j : Nat) : ataca i j = true ↔ se_atacan i j := by
  unfold ataca se_atacan
  simp only [Bool.or_eq_true, decide_eq_true_eq, abs_eq_abs]
  omega

theorem ataca_self (i : Nat) : ataca i i = true := by
  simp [ataca]

theorem ataca_comm (i j : Nat) : ataca i j = ataca j i := by
  unfold ataca
  rw [Bool.eq_iff_iff]
  simp only [Bool.or_eq_true, decide_eq_true_eq]
  omega

theorem nuevo_posibles_pow (pos : Nat) {i j : Nat} (hi : i < 64) (hj : j < 64) :
    (nuevo_posibles init_filas (2 ^ i) pos).testBit j = (pos.testBit j && !ataca i j) := by
  rw [nuevo_posibles_testBit _ init_filas_length _ _ _ hj, lineas_ataque i hi,
    ataque_testBit i hi j hj]

theorem nuevo_posibles_bit (pos : Nat) {i j : Nat} (hi : i < 64) (hj : j < 64) :
    (nuevo_posibles init_filas ((1 <<< i) % 2 ^ 64) pos).testBit j =
      (pos.testBit j && !ataca i j) := by
  rw [uno_desplazado hi, nuevo_posibles_pow pos hi hj]

theorem nuevo_posibles_lt {pos : Nat} (hpos : pos < 2 ^ 64) (b : Nat) :
    nuevo_posibles init_filas b pos < 2 ^ 64 :=
  lt_of_le_of_lt (nuevo_posibles_le _ init_filas_length _ _) hpos

theorem nuevo_posibles_rapido {pos : Nat} (hpos : pos < 2 ^ 64) {i : Nat} (hi : i < 64) :
    nuevo_posibles init_filas ((1 <<< i) % 2 ^ 64) pos =
      Nat.land pos (Nat.xor (ataque i) 0xFFFFFFFFFFFFFFFF) := by
  apply Nat.eq_of_testBit_eq
  intro j
  show _ = (pos &&& (ataque i ^^^ 0xFFFFFFFFFFFFFFFF)).testBit j
  by_cases hj : j < 64
  · rw [nuevo_posibles_bit pos hi hj, Nat.testBit_and, Nat.testBit_xor, testBit_todas,
      ataque_testBit i hi j hj]
    simp [hj]
  · rw [testBit_alto (nuevo_posibles_lt hpos _) (by omega), Nat.testBit_and,
      testBit_alto hpos (by omega)]
    rfl

/-! ## `colocar` in terms of `llamadas_desde` and `soluciones_desde` -/

theorem numerar_append (a b : List Nat) :
    ∀ s : Int, numerar s (a ++ b) = numerar s a ++ numerar (s + a.length) b := by
  induction a with
  | nil => intro s; simp [numerar]
  | cons x a ih =>
    intro s
    have h : s + 1 + (a.length : Int) = s + ((x :: a).length : Nat) := by
      simp only [List.length_cons, Nat.cast_add, Nat.cast_one]
      ring
    show (s + 1, x) :: numerar (s + 1) (a ++ b) =
      (s + 1, x) :: (numerar (s + 1) a ++ numerar (s + ((x :: a).length : Nat)) b)
    rw [ih, h]

theorem numerar_length (l : List Nat) : ∀ s : Int, (numerar s l).length = l.length := by
  induction l with
  | nil => intro s; rfl
  | cons x l ih => intro s; simp [numerar, ih]

theorem numerar_map_snd (l : List Nat) : ∀ s : Int, (numerar s l).map Prod.snd = l := by
  induction l with
  | nil => intro s; rfl
  | cons x l ih => intro s; simp [numerar, ih]

theorem agregar_cero (st : Estado) : agregar st 0 [] = st := by
  cases st
  simp [agregar, numerar]

theorem agregar_agregar (st : Estado) (n1 n2 : Nat) (l1 l2 : List Nat) :
    agregar (agregar st n1 l1) n2 l2 = agregar st (n1 + n2) (l1 ++ l2) := by
  cases st
  simp only [agregar, numerar_append, List.length_append, Nat.cast_add, List.append_assoc,
    Estado.mk.injEq, and_true]
  constructor <;> ring

theorem agregar_llamada (st : Estado) (n : Nat) (l : List Nat) :
    agregar { st with llamadas_a_colocar := st.llamadas_a_colocar + 1 } n l =
      agregar st (1 + n) l := by
  cases st
  simp only [agregar, Nat.cast_add, Nat.cast_one, Estado.mk.injEq, and_true]
  ring

theorem fuel_ambos (filas : List Nat) (fuel : Nat) :
    (∀ (faltan : Int) (sig col pos : Nat) (st : Estado), 2 * (64 - sig) + 1 ≤ fuel →
      colocar_fuel filas fuel faltan sig col pos st =
        if faltan ≤ 0 then agregar st 1 [col]
        else agregar st (1 + llamadas_desde filas (64 - sig) faltan pos)
          (soluciones_desde filas (64 - sig) faltan col pos)) ∧
    (∀ (faltan : Int) (sig col pos : Nat) (st : Estado), 2 * (64 - sig) ≤ fuel →
      mientras_fuel filas fuel faltan sig col pos st =
        agregar st (llamadas_desde filas (64 - sig) faltan pos)
          (soluciones_desde filas (64 - sig) faltan col pos)) := by
  induction fuel with
  | zero =>
    refine ⟨fun _ _ _ _ _ h => absurd h (by omega), fun faltan sig col pos st h => ?_⟩
    have h0 : 64 - sig = 0 := by omega
    rw [h0]
    simp [mientras_fuel, llamadas_desde, soluciones_desde, agregar_cero]
  | succ fuel ih =>
    obtain ⟨ihA, ihB⟩ := ih
    constructor
    · intro faltan sig col pos st h
      rw [colocar_fuel]
      by_cases hf : faltan ≤ 0
      · simp only [if_pos hf]
        cases st
        simp [agregar, numerar]
      · simp only [if_neg hf]
        rw [ihB _ _ _ _ _ (by omega), agregar_llamada]
    · intro faltan sig col pos st h
      rw [mientras_fuel]
      by_cases hs : sig < 64
      · simp only [if_pos hs]
        obtain ⟨r, hr⟩ : ∃ r, 64 - sig = r + 1 := ⟨63 - sig, by omega⟩
        have hr1 : 63 - r = sig := by omega
        have hr2 : 64 - (sig + 1) = r := by omega
        rw [hr, llamadas_desde, soluciones_desde, hr1, ihB _ _ _ _ _ (by omega), hr2]
        by_cases hb : (pos >>> sig) &&& 1 ≠ 0
        · simp only [if_pos hb]
          rw [ihA _ _ _ _ _ (by omega), hr2]
          by_cases hf : faltan - 1 ≤ 0
          · simp only [if_pos hf, agregar_agregar]
          · simp only [if_neg hf, agregar_agregar]
        · simp only [if_neg hb, List.nil_append, Nat.zero_add]
      · simp only [if_neg hs]
        have h0 : 64 - sig = 0 := by omega
        rw [h0]
        simp [llamadas_desde, soluciones_desde, agregar_cero]

theorem colocar_fuel_eq (filas : List Nat) (fuel : Nat) (faltan : Int) (sig col pos : Nat)
    (st : Estado) (h : 2 * (64 - sig) + 1 ≤ fuel) :
    colocar_fuel filas fuel faltan sig col pos st =
      if faltan ≤ 0 then agregar st 1 [col]
      else agregar st (1 + llamadas_desde filas (64 - sig) faltan pos)
        (soluciones_desde filas (64 - sig) faltan col pos) :=
  (fuel_ambos filas fuel).1 faltan sig col pos st h

theorem colocar_eq (filas : List Nat) (faltan : Int) (sig col pos : Nat) (st : Estado) :
    colocar filas faltan sig col pos st =
      if faltan ≤ 0 then agregar st 1 [col]
      else agregar st (1 + llamadas_desde filas (64 - sig) faltan pos)
        (soluciones_desde filas (64 - sig) faltan col pos) :=
  colocar_fuel_eq filas _ faltan sig col pos st (le_refl _)

/-- More fuel than `colocar` supplies changes nothing. -/
theorem colocar_fuel_estable (filas : List Nat) (fuel : Nat) (faltan : Int) (sig col pos : Nat)
    (st : Estado) (h : 2 * (64 - sig) + 1 ≤ fuel) :
    colocar_fuel filas fuel faltan sig col pos st = colocar filas faltan sig col pos st := by
  rw [colocar_fuel_eq filas fuel faltan sig col pos st h, colocar_eq]

theorem reportados_eq (filas : List Nat) (faltan : Int) (sig col pos : Nat) (st : Estado) :
    reportados filas faltan sig col pos st =
      if faltan ≤ 0 then [col] else soluciones_desde filas (64 - sig) faltan col pos := by
  unfold reportados
  rw [colocar_eq]
  split
  · simp [agregar, numerar]
  · simp [agregar, numerar_map_snd]

theorem busqueda_eq (m : Nat) : busqueda m = soluciones_desde init_filas 64 8 0 m := by
  unfold busqueda
  rw [reportados_eq]
  simp

/-! ## The evaluator computes the two functions -/

theorem rec_append (s1 s2 : List Nat) :
    List.rec (motive := fun _ => List Nat) s2 (fun x _ r => x :: r) s1 = s1 ++ s2 := by
  induction s1 with
  | nil => rfl
  | cons x s1 ih => exact congrArg (List.cons x) ih

theorem combinar_cons (c1 c2 : Nat) (s1 s2 : List Nat) :
    combinar (c1 :: s1) (c2 :: s2) = (c1 + c2) :: (s1 ++ s2) := by
  show Nat.add c1 c2 :: List.rec (motive := fun _ => List Nat) s2 (fun x _ r => x :: r) s1 = _
  rw [rec_append]
  rfl

theorem explorar_zero (n sig col pos : Nat) : explorar 0 n sig col pos = [0] := rfl

theorem rec_beq {α : Type} (x : Nat) (a b : α) :
    (Bool.rec (motive := fun _ => α) b a (Nat.beq x 0)) = if x = 0 then a else b := by
  cases x <;> rfl

theorem rec_ble {α : Type} (x y : Nat) (a b : α) :
    (Bool.rec (motive := fun _ => α) b a (Nat.ble x y)) = if x ≤ y then a else b := by
  by_cases h : x ≤ y
  · rw [Nat.ble_eq_true_of_le h, if_pos h]
  · have hb : Nat.ble x y = false := by
      cases hc : Nat.ble x y
      · rfl
      · exact absurd (Nat.le_of_ble_eq_true hc) h
    rw [hb, if_neg h]

theorem explorar_succ (fuel n sig col pos : Nat) :
    explorar (fuel + 1) n sig col pos =
      if pos >>> sig = 0 then [0]
      else
        if 64 ≤ destino (pos >>> sig) sig (salto (pos >>> sig)) then [0]
        else
          combinar
            (if (pos >>> destino (pos >>> sig) sig (salto (pos >>> sig))) &&& 1 = 0 then [0]
            else
              if n ≤ 1 then [1, col ||| 2 ^ destino (pos >>> sig) sig (salto (pos >>> sig))]
              else
                combinar [1]
                  (explorar fuel (n - 1) (destino (pos >>> sig) sig (salto (pos >>> sig)) + 1)
                    (col ||| 2 ^ destino (pos >>> sig) sig (salto (pos >>> sig)))
                    (Nat.land pos
                      (Nat.xor (ataque (destino (pos >>> sig) sig (salto (pos >>> sig))))
                        0xFFFFFFFFFFFFFFFF))))
            (explorar fuel n (destino (pos >>> sig) sig (salto (pos >>> sig)) + 1) col pos) := by
  unfold explorar
  simp only [rec_beq, rec_ble]
  rfl

theorem destino_eq (r sig d : Nat) :
    destino r sig d = if r % 2 ^ d = 0 then sig + d else sig := by
  unfold destino
  rw [rec_beq]
  rfl

theorem destino_ge (r sig d : Nat) : sig ≤ destino r sig d := by
  rw [destino_eq]; split <;> omega

theorem destino_libre (pos sig d j : Nat) (h1 : sig ≤ j)
    (h2 : j < destino (pos >>> sig) sig d) : pos.testBit j = false := by
  rw [destino_eq] at h2
  split at h2
  · rename_i h
    have hk := congrArg (fun x => Nat.testBit x (j - sig)) h
    simp only [Nat.testBit_mod_two_pow, Nat.testBit_shiftRight, Nat.zero_testBit] at hk
    have hlt : j - sig < d := by omega
    have hj : sig + (j - sig) = j := by omega
    rw [hj] at hk
    simpa [hlt] using hk
  · omega

theorem desde_saltar (filas : List Nat) (n : Int) (col pos sig : Nat) :
    ∀ d, (∀ j, sig ≤ j → j < sig + d → pos.testBit j = false) →
      llamadas_desde filas (64 - sig) n pos = llamadas_desde filas (64 - (sig + d)) n pos ∧
      soluciones_desde filas (64 - sig) n col pos =
        soluciones_desde filas (64 - (sig + d)) n col pos := by
  intro d
  induction d with
  | zero => intro _; exact ⟨rfl, rfl⟩
  | succ d ih =>
    intro h
    obtain ⟨h1, h2⟩ := ih (fun j hj1 hj2 => h j hj1 (by omega))
    rw [h1, h2]
    by_cases hs : sig + d < 64
    · obtain ⟨r, hr⟩ : ∃ r, 64 - (sig + d) = r + 1 := ⟨63 - (sig + d), by omega⟩
      have hr1 : 63 - r = sig + d := by omega
      have hr2 : 64 - (sig + (d + 1)) = r := by omega
      have hb : ¬ ((pos >>> (sig + d)) &&& 1 ≠ 0) := by
        rw [bit_probado, h (sig + d) (by omega) (by omega)]
        exact Bool.false_ne_true
      rw [hr, hr2, llamadas_desde, soluciones_desde, hr1]
      simp only [if_neg hb, Nat.zero_add, List.nil_append, and_self]
    · have e1 : 64 - (sig + d) = 0 := by omega
      have e2 : 64 - (sig + (d + 1)) = 0 := by omega
      rw [e1, e2]
      exact ⟨rfl, rfl⟩

theorem desde_hasta (filas : List Nat) (n : Int) (col pos sig i : Nat) (hi : sig ≤ i)
    (h : ∀ j, sig ≤ j → j < i → pos.testBit j = false) :
    llamadas_desde filas (64 - sig) n pos = llamadas_desde filas (64 - i) n pos ∧
      soluciones_desde filas (64 - sig) n col pos = soluciones_desde filas (64 - i) n col pos := by
  have e : i = sig + (i - sig) := by omega
  rw [e]
  exact desde_saltar filas n col pos sig (i - sig) (fun j h1 h2 => h j h1 (by omega))

theorem explorar_eq (fuel : Nat) :
    ∀ (n sig col pos : Nat), pos < 2 ^ 64 → 64 - sig ≤ fuel →
      explorar fuel n sig col pos =
        llamadas_desde init_filas (64 - sig) (n : Int) pos ::
          soluciones_desde init_filas (64 - sig) (n : Int) col pos := by
  induction fuel with
  | zero =>
    intro n sig col pos _ h
    have e : 64 - sig = 0 := by omega
    rw [e]
    rfl
  | succ fuel ih =>
    intro n sig col pos hpos h
    rw [explorar_succ]
    by_cases hr : pos >>> sig = 0
    · rw [if_pos hr]
      have hz : ∀ j, sig ≤ j → j < sig + 64 → pos.testBit j = false := by
        intro j h1 _
        have hk := congrArg (fun x => Nat.testBit x (j - sig)) hr
        simp only [Nat.testBit_shiftRight, Nat.zero_testBit] at hk
        have hj : sig + (j - sig) = j := by omega
        rwa [hj] at hk
      obtain ⟨h1, h2⟩ := desde_saltar init_filas (n : Int) col pos sig 64 hz
      have e : 64 - (sig + 64) = 0 := by omega
      rw [h1, h2, e]
      rfl
    · rw [if_neg hr]
      generalize hi : destino (pos >>> sig) sig (salto (pos >>> sig)) = i
      have hge : sig ≤ i := hi ▸ destino_ge _ _ _
      have hlibre : ∀ j, sig ≤ j → j < i → pos.testBit j = false := by
        intro j h1 h2
        exact destino_libre pos sig _ j h1 (hi ▸ h2)
      obtain ⟨h1, h2⟩ := desde_hasta init_filas (n : Int) col pos sig i hge hlibre
      rw [h1, h2]
      by_cases h64 : 64 ≤ i
      · have e : 64 - i = 0 := by omega
        rw [if_pos h64, e]
        rfl
      · have hi64 : i < 64 := by omega
        rw [if_neg h64]
        obtain ⟨r, hr0⟩ : ∃ r, 64 - i = r + 1 := ⟨63 - i, by omega⟩
        have hr1 : 63 - r = i := by omega
        have hr2 : 64 - (i + 1) = r := by omega
        rw [hr0, llamadas_desde, soluciones_desde, hr1, ih n (i + 1) col pos hpos (by omega), hr2,
          uno_desplazado hi64]
        by_cases hbit : (pos >>> i) &&& 1 = 0
        · have hn : ¬ ((pos >>> i) &&& 1 ≠ 0) := fun hh => hh hbit
          simp only [if_pos hbit, if_neg hn, combinar_cons, Nat.zero_add, List.nil_append]
        · have hp : (pos >>> i) &&& 1 ≠ 0 := hbit
          simp only [if_neg hbit, if_pos hp]
          by_cases hn1 : n ≤ 1
          · have hf : (n : Int) - 1 ≤ 0 := by omega
            simp only [if_pos hn1, if_pos hf, combinar_cons, List.singleton_append]
          · have hf : ¬ ((n : Int) - 1 ≤ 0) := by omega
            have hcast : ((n - 1 : Nat) : Int) = (n : Int) - 1 := by omega
            simp only [if_neg hn1, if_neg hf]
            rw [← nuevo_posibles_rapido hpos hi64, uno_desplazado hi64,
              ih (n - 1) (i + 1) (col ||| 2 ^ i) _ (nuevo_posibles_lt hpos _) (by omega), hr2,
              hcast]
            simp only [combinar_cons, List.nil_append]

/-! ## The first loop, square by square -/

theorem aporte_eq (m a : Nat) :
    aporte m a =
      if (m >>> a) &&& 1 = 0 then [0]
      else combinar [1]
        (explorar 64 7 (a + 1) (2 ^ a) (Nat.land m (Nat.xor (ataque a) 0xFFFFFFFFFFFFFFFF))) := by
  unfold aporte
  rw [rec_beq]
  rfl

theorem desde_aportes (m : Nat) (hm : m < 2 ^ 64) :
    ∀ n a, a + n = 64 →
      llamadas_desde init_filas n 8 m :: soluciones_desde init_filas n 8 0 m =
        List.foldr combinar [0] ((List.range' a n).map (aporte m)) := by
  intro n
  induction n with
  | zero => intro a _; rfl
  | succ n ih =>
    intro a ha
    have ha64 : a < 64 := by omega
    have hs : 63 - n = a := by omega
    have h7 : (8 : Int) - 1 = ((7 : Nat) : Int) := by norm_num
    have hf : ¬ ((8 : Int) - 1 ≤ 0) := by norm_num
    rw [List.range'_succ, List.map_cons, List.foldr_cons, ← ih (a + 1) (by omega), aporte_eq,
      llamadas_desde, soluciones_desde, hs, uno_desplazado ha64, Nat.zero_or]
    simp only [if_neg hf]
    by_cases hbit : (m >>> a) &&& 1 = 0
    · have hn : ¬ ((m >>> a) &&& 1 ≠ 0) := fun hh => hh hbit
      simp only [if_pos hbit, if_neg hn, combinar_cons, Nat.zero_add, List.nil_append]
    · have hp : (m >>> a) &&& 1 ≠ 0 := hbit
      simp only [if_neg hbit, if_pos hp]
      rw [← nuevo_posibles_rapido hm ha64, uno_desplazado ha64,
        explorar_eq 64 7 (a + 1) (2 ^ a) _ (nuevo_posibles_lt hm _) (by omega), h7]
      have hr : 64 - (a + 1) = n := by omega
      rw [hr]
      simp only [combinar_cons, List.nil_append]

theorem desde_aportes_64 (m : Nat) (hm : m < 2 ^ 64) :
    llamadas_desde init_filas 64 8 m :: soluciones_desde init_filas 64 8 0 m =
      List.foldr combinar [0] ((List.range' 0 64).map (aporte m)) :=
  desde_aportes m hm 64 0 rfl

/-! ## The three searches of `main`, evaluated

Each `aportes_*` statement is checked by evaluating `aporte` in the kernel. -/

theorem aportes_todas_0 :
    (List.range' 0 1).map (aporte 0xFFFFFFFFFFFFFFFF) = (tabla_todas.drop 0).take 1 := by
  decide!

theorem aportes_todas_1 :
    (List.range' 1 1).map (aporte 0xFFFFFFFFFFFFFFFF) = (tabla_todas.drop 1).take 1 := by
  decide!

theorem aportes_todas_2 :
    (List.range' 2 1).map (aporte 0xFFFFFFFFFFFFFFFF) = (tabla_todas.drop 2).take 1 := by
  decide!

theorem aportes_todas_3 :
    (List.range' 3 1).map (aporte 0xFFFFFFFFFFFFFFFF) = (tabla_todas.drop 3).take 1 := by
  decide!

theorem aportes_todas_4 :
    (List.range' 4 1).map (aporte 0xFFFFFFFFFFFFFFFF) = (tabla_todas.drop 4).take 1 := by
  decide!

theorem aportes_todas_5 :
    (List.range' 5 1).map (aporte 0xFFFFFFFFFFFFFFFF) = (tabla_todas.drop 5).take 1 := by
  decide!

theorem aportes_todas_6 :
    (List.range' 6 1).map (aporte 0xFFFFFFFFFFFFFFFF) = (tabla_todas.drop 6).take 1 := by
  decide!

theorem aportes_todas_7 :
    (List.range' 7 2).map (aporte 0xFFFFFFFFFFFFFFFF) = (tabla_todas.drop 7).take 2 := by
  decide!

theorem aportes_todas_9 :
    (List.range' 9 3).map (aporte 0xFFFFFFFFFFFFFFFF) = (tabla_todas.drop 9).take 3 := by
  decide!

theorem aportes_todas_12 :
    (List.range' 12 3).map (aporte 0xFFFFFFFFFFFFFFFF) = (tabla_todas.drop 12).take 3 := by
  decide!

theorem aportes_todas_15 :
    (List.range' 15 7).map (aporte 0xFFFFFFFFFFFFFFFF) = (tabla_todas.drop 15).take 7 := by
  decide!

theorem aportes_todas_22 :
    (List.range' 22 42).map (aporte 0xFFFFFFFFFFFFFFFF) = (tabla_todas.drop 22).take 42 := by
  decide!

theorem aportes_todas : (List.range' 0 64).map (aporte 0xFFFFFFFFFFFFFFFF) = tabla_todas := by
  have h : List.range' 0 64 =
      List.range' 0 1 ++ List.range' 1 1 ++ List.range' 2 1 ++ List.range' 3 1 ++
      List.range' 4 1 ++ List.range' 5 1 ++ List.range' 6 1 ++ List.range' 7 2 ++
      List.range' 9 3 ++ List.range' 12 3 ++ List.range' 15 7 ++ List.range' 22 42 := by
    decide!
  have ht : tabla_todas =
      (tabla_todas.drop 0).take 1 ++ (tabla_todas.drop 1).take 1 ++
      (tabla_todas.drop 2).take 1 ++ (tabla_todas.drop 3).take 1 ++
      (tabla_todas.drop 4).take 1 ++ (tabla_todas.drop 5).take 1 ++
      (tabla_todas.drop 6).take 1 ++ (tabla_todas.drop 7).take 2 ++
      (tabla_todas.drop 9).take 3 ++ (tabla_todas.drop 12).take 3 ++
      (tabla_todas.drop 15).take 7 ++ (tabla_todas.drop 22).take 42 := by
    decide!
  rw [h]
  simp only [List.map_append]
  rw [
      aportes_todas_0, aportes_todas_1, aportes_todas_2, aportes_todas_3, aportes_todas_4,
      aportes_todas_5, aportes_todas_6, aportes_todas_7, aportes_todas_9, aportes_todas_12,
      aportes_todas_15, aportes_todas_22]
  exact ht.symm

theorem desde_todas :
    llamadas_desde init_filas 64 8 0xFFFFFFFFFFFFFFFF = 118968 ∧
    soluciones_desde init_filas 64 8 0 0xFFFFFFFFFFFFFFFF = encontradas tabla_todas := by
  have h := desde_aportes_64 0xFFFFFFFFFFFFFFFF (by decide)
  rw [aportes_todas] at h
  have hv : List.foldr combinar [0] tabla_todas = 118968 :: encontradas tabla_todas := by
    decide!
  rw [hv] at h
  exact List.cons.inj h

theorem aportes_esquinas_0 :
    (List.range' 0 2).map (aporte 0xFEFFFFFFFFFFFF7E) = (tabla_esquinas.drop 0).take 2 := by
  decide!

theorem aportes_esquinas_2 :
    (List.range' 2 1).map (aporte 0xFEFFFFFFFFFFFF7E) = (tabla_esquinas.drop 2).take 1 := by
  decide!

theorem aportes_esquinas_3 :
    (List.range' 3 1).map (aporte 0xFEFFFFFFFFFFFF7E) = (tabla_esquinas.drop 3).take 1 := by
  decide!

theorem aportes_esquinas_4 :
    (List.range' 4 1).map (aporte 0xFEFFFFFFFFFFFF7E) = (tabla_esquinas.drop 4).take 1 := by
  decide!

theorem aportes_esquinas_5 :
    (List.range' 5 1).map (aporte 0xFEFFFFFFFFFFFF7E) = (tabla_esquinas.drop 5).take 1 := by
  decide!

theorem aportes_esquinas_6 :
    (List.range' 6 3).map (aporte 0xFEFFFFFFFFFFFF7E) = (tabla_esquinas.drop 6).take 3 := by
  decide!

theorem aportes_esquinas_9 :
    (List.range' 9 3).map (aporte 0xFEFFFFFFFFFFFF7E) = (tabla_esquinas.drop 9).take 3 := by
  decide!

theorem aportes_esquinas_12 :
    (List.range' 12 3).map (aporte 0xFEFFFFFFFFFFFF7E) = (tabla_esquinas.drop 12).take 3 := by
  decide!

theorem aportes_esquinas_15 :
    (List.range' 15 8).map (aporte 0xFEFFFFFFFFFFFF7E) = (tabla_esquinas.drop 15).take 8 := by
  decide!

theorem aportes_esquinas_23 :
    (List.range' 23 41).map (aporte 0xFEFFFFFFFFFFFF7E) = (tabla_esquinas.drop 23).take 41 := by
  decide!

theorem aportes_esquinas : (List.range' 0 64).map (aporte 0xFEFFFFFFFFFFFF7E) = tabla_esquinas := by
  have h : List.range' 0 64 =
      List.range' 0 2 ++ List.range' 2 1 ++ List.range' 3 1 ++ List.range' 4 1 ++
      List.range' 5 1 ++ List.range' 6 3 ++ List.range' 9 3 ++ List.range' 12 3 ++
      List.range' 15 8 ++ List.range' 23 41 := by
    decide!
  have ht : tabla_esquinas =
      (tabla_esquinas.drop 0).take 2 ++ (tabla_esquinas.drop 2).take 1 ++
      (tabla_esquinas.drop 3).take 1 ++ (tabla_esquinas.drop 4).take 1 ++
      (tabla_esquinas.drop 5).take 1 ++ (tabla_esquinas.drop 6).take 3 ++
      (tabla_esquinas.drop 9).take 3 ++ (tabla_esquinas.drop 12).take 3 ++
      (tabla_esquinas.drop 15).take 8 ++ (tabla_esquinas.drop 23).take 41 := by
    decide!
  rw [h]
  simp only [List.map_append]
  rw [
      aportes_esquinas_0, aportes_esquinas_2, aportes_esquinas_3, aportes_esquinas_4,
      aportes_esquinas_5, aportes_esquinas_6, aportes_esquinas_9, aportes_esquinas_12,
      aportes_esquinas_15, aportes_esquinas_23]
  exact ht.symm

theorem desde_esquinas :
    llamadas_desde init_filas 64 8 0xFEFFFFFFFFFFFF7E = 94257 ∧
    soluciones_desde init_filas 64 8 0 0xFEFFFFFFFFFFFF7E = encontradas tabla_esquinas := by
  have h := desde_aportes_64 0xFEFFFFFFFFFFFF7E (by decide)
  rw [aportes_esquinas] at h
  have hv : List.foldr combinar [0] tabla_esquinas = 94257 :: encontradas tabla_esquinas := by
    decide!
  rw [hv] at h
  exact List.cons.inj h

theorem aportes_agresivo_0 :
    (List.range' 0 2).map (aporte 0xF07FFFFFFFFFFE7E) = (tabla_agresivo.drop 0).take 2 := by
  decide!

theorem aportes_agresivo_2 :
    (List.range' 2 1).map (aporte 0xF07FFFFFFFFFFE7E) = (tabla_agresivo.drop 2).take 1 := by
  decide!

theorem aportes_agresivo_3 :
    (List.range' 3 2).map (aporte 0xF07FFFFFFFFFFE7E) = (tabla_agresivo.drop 3).take 2 := by
  decide!

theorem aportes_agresivo_5 :
    (List.range' 5 4).map (aporte 0xF07FFFFFFFFFFE7E) = (tabla_agresivo.drop 5).take 4 := by
  decide!

theorem aportes_agresivo_9 :
    (List.range' 9 5).map (aporte 0xF07FFFFFFFFFFE7E) = (tabla_agresivo.drop 9).take 5 := by
  decide!

theorem aportes_agresivo_14 :
    (List.range' 14 16).map (aporte 0xF07FFFFFFFFFFE7E) = (tabla_agresivo.drop 14).take 16 := by
  decide!

theorem aportes_agresivo_30 :
    (List.range' 30 34).map (aporte 0xF07FFFFFFFFFFE7E) = (tabla_agresivo.drop 30).take 34 := by
  decide!

theorem aportes_agresivo : (List.range' 0 64).map (aporte 0xF07FFFFFFFFFFE7E) = tabla_agresivo := by
  have h : List.range' 0 64 =
      List.range' 0 2 ++ List.range' 2 1 ++ List.range' 3 2 ++ List.range' 5 4 ++
      List.range' 9 5 ++ List.range' 14 16 ++ List.range' 30 34 := by
    decide!
  have ht : tabla_agresivo =
      (tabla_agresivo.drop 0).take 2 ++ (tabla_agresivo.drop 2).take 1 ++
      (tabla_agresivo.drop 3).take 2 ++ (tabla_agresivo.drop 5).take 4 ++
      (tabla_agresivo.drop 9).take 5 ++ (tabla_agresivo.drop 14).take 16 ++
      (tabla_agresivo.drop 30).take 34 := by
    decide!
  rw [h]
  simp only [List.map_append]
  rw [
      aportes_agresivo_0, aportes_agresivo_2, aportes_agresivo_3, aportes_agresivo_5,
      aportes_agresivo_9, aportes_agresivo_14, aportes_agresivo_30]
  exact ht.symm

theorem desde_agresivo :
    llamadas_desde init_filas 64 8 0xF07FFFFFFFFFFE7E = 58955 ∧
    soluciones_desde init_filas 64 8 0 0xF07FFFFFFFFFFE7E = encontradas tabla_agresivo := by
  have h := desde_aportes_64 0xF07FFFFFFFFFFE7E (by decide)
  rw [aportes_agresivo] at h
  have hv : List.foldr combinar [0] tabla_agresivo = 58955 :: encontradas tabla_agresivo := by
    decide!
  rw [hv] at h
  exact List.cons.inj h

/-! ## The three searches of `main` -/

theorem colocar_inicio (m : Nat) :
    colocar init_filas 8 0 0 m inicio =
      agregar inicio (1 + llamadas_desde init_filas 64 8 m) (soluciones_desde init_filas 64 8 0 m) := by
  rw [colocar_eq]
  rfl

theorem agregar_inicio (n : Nat) (l : List Nat) :
    (agregar inicio n l).llamadas_a_colocar = n ∧ (agregar inicio n l).soluciones = l.length ∧
      (agregar inicio n l).salida.length = l.length := by
  simp [agregar, inicio, numerar_length]

/-- C1: after `init_filas`, the call `colocar (8, 0, 0, 0xFFFFFFFFFFFFFFFF)` with both
counters at zero makes 118969 calls of `colocar` in all and reports 92 solutions:
the solution counter ends at 92 and 92 boards are printed. -/
theorem colocar_tablero_completo :
    (colocar init_filas 8 0 0 0xFFFFFFFFFFFFFFFF inicio).llamadas_a_colocar = 118969 ∧
    (colocar init_filas 8 0 0 0xFFFFFFFFFFFFFFFF inicio).soluciones = 92 ∧
    (colocar init_filas 8 0 0 0xFFFFFFFFFFFFFFFF inicio).salida.length = 92 := by
  rw [colocar_inicio, desde_todas.1, desde_todas.2]
  exact agregar_inicio _ _

/-- C2: after `init_filas`, the call `colocar (8, 0, 0, 0xFEFFFFFFFFFFFF7E)` with both
counters at zero makes 94258 calls of `colocar` in all and reports 80 solutions. -/
theorem colocar_tres_esquinas :
    (colocar init_filas 8 0 0 0xFEFFFFFFFFFFFF7E inicio).llamadas_a_colocar = 94258 ∧
    (colocar init_filas 8 0 0 0xFEFFFFFFFFFFFF7E inicio).soluciones = 80 ∧
    (colocar init_filas 8 0 0 0xFEFFFFFFFFFFFF7E inicio).salida.length = 80 := by
  rw [colocar_inicio, desde_esquinas.1, desde_esquinas.2]
  exact agregar_inicio _ _

/-- C3: after `init_filas`, the call `colocar (8, 0, 0, 0xF07FFFFFFFFFFE7E)` with both
counters at zero makes 58956 calls of `colocar` in all and reports 35 solutions. -/
theorem colocar_ocho_casillas :
    (colocar init_filas 8 0 0 0xF07FFFFFFFFFFE7E inicio).llamadas_a_colocar = 58956 ∧
    (colocar init_filas 8 0 0 0xF07FFFFFFFFFFE7E inicio).soluciones = 35 ∧
    (colocar init_filas 8 0 0 0xF07FFFFFFFFFFE7E inicio).salida.length = 35 := by
  rw [colocar_inicio, desde_agresivo.1, desde_agresivo.2]
  exact agregar_inicio _ _

/-! ## Soundness and completeness of the search -/

theorem no_ataca_iff (i j : Nat) : ataca i j = false ↔ ¬ se_atacan i j := by
  rw [← ataca_iff, Bool.not_eq_true]

theorem or_decide_congr (a : Bool) {P Q : Prop} [Decidable P] [Decidable Q] (h : P ↔ Q) :
    (a || decide P) = (a || decide Q) := by
  rw [decide_eq_decide.2 h]

theorem cuenta_bits_card (b : Nat) (T : Finset Nat) (hT : ∀ j, b.testBit j = decide (j ∈ T))
    (h64 : ∀ j ∈ T, j < 64) : cuenta_bits b = T.card := by
  unfold cuenta_bits
  have hnd : ((List.range 64).filter (fun i => b.testBit i)).Nodup :=
    (List.nodup_range 64).filter _
  rw [← List.toFinset_card_of_nodup hnd]
  congr 1
  ext j
  simp only [List.mem_toFinset, List.mem_filter, List.mem_range, hT, decide_eq_true_eq]
  exact ⟨fun h => h.2, fun h => ⟨h64 j h, h⟩⟩

theorem desde_correcto (resto : Nat) :
    ∀ (faltan : Int) (col pos : Nat), resto ≤ 64 → 1 ≤ faltan →
      ∀ b ∈ soluciones_desde init_filas resto faltan col pos,
        ∃ T : Finset Nat, (T.card : Int) = faltan ∧
          (∀ j ∈ T, 64 - resto ≤ j ∧ j < 64 ∧ pos.testBit j = true) ∧
          (∀ i ∈ T, ∀ j ∈ T, i ≠ j → ataca i j = false) ∧
          ∀ j, b.testBit j = (col.testBit j || decide (j ∈ T)) := by
  induction resto with
  | zero => intro faltan col pos _ _ b hb; simp [soluciones_desde] at hb
  | succ resto ih =>
    intro faltan col pos hr hf b hb
    have hs64 : 63 - resto < 64 := by omega
    rw [soluciones_desde, List.mem_append, uno_desplazado hs64] at hb
    rcases hb with hb | hb
    · by_cases hbit : (pos >>> (63 - resto)) &&& 1 ≠ 0
      · rw [if_pos hbit] at hb
        have hpb : pos.testBit (63 - resto) = true := (bit_probado _ _).1 hbit
        by_cases hl : faltan - 1 ≤ 0
        · rw [if_pos hl, List.mem_singleton] at hb
          refine ⟨{63 - resto}, ?_, ?_, ?_, ?_⟩
          · simp only [Finset.card_singleton, Nat.cast_one]; omega
          · intro j hj
            rw [Finset.mem_singleton] at hj
            subst hj
            exact ⟨by omega, hs64, hpb⟩
          · intro i hi j hj hij
            rw [Finset.mem_singleton] at hi hj
            exact absurd (hi.trans hj.symm) hij
          · intro j
            rw [hb, Nat.testBit_or, Nat.testBit_two_pow]
            exact or_decide_congr _ (by rw [Finset.mem_singleton]; exact eq_comm)
        · rw [if_neg hl] at hb
          obtain ⟨T, hcard, hmem, hpair, hbits⟩ :=
            ih (faltan - 1) _ _ (by omega) (by omega) b hb
          have hnot : 63 - resto ∉ T := fun h => by
            have := (hmem _ h).1
            omega
          have hnew : ∀ j ∈ T, pos.testBit j = true ∧ ataca (63 - resto) j = false := by
            intro j hj
            have h3 := (hmem j hj).2.2
            rw [nuevo_posibles_pow pos hs64 (hmem j hj).2.1, Bool.and_eq_true,
              Bool.not_eq_true'] at h3
            exact h3
          refine ⟨insert (63 - resto) T, ?_, ?_, ?_, ?_⟩
          · rw [Finset.card_insert_of_not_mem hnot]
            push_cast
            omega
          · intro j hj
            rw [Finset.mem_insert] at hj
            rcases hj with hj | hj
            · subst hj
              exact ⟨by omega, hs64, hpb⟩
            · exact ⟨by have := (hmem j hj).1; omega, (hmem j hj).2.1, (hnew j hj).1⟩
          · intro i hi j hj hij
            rw [Finset.mem_insert] at hi hj
            rcases hi with hi | hi <;> rcases hj with hj | hj
            · exact absurd (hi.trans hj.symm) hij
            · rw [hi]; exact (hnew j hj).2
            · rw [hj, ataca_comm]; exact (hnew i hi).2
            · exact hpair i hi j hj hij
          · intro j
            rw [hbits j, Nat.testBit_or, Nat.testBit_two_pow, Bool.or_assoc, ← Bool.decide_or]
            exact or_decide_congr _
              (by rw [Finset.mem_insert]; exact or_congr eq_comm Iff.rfl)
      · rw [if_neg hbit] at hb
        simp at hb
    · obtain ⟨T, hcard, hmem, hpair, hbits⟩ := ih faltan col pos (by omega) hf b hb
      exact ⟨T, hcard, fun j hj => ⟨by have := (hmem j hj).1; omega, (hmem j hj).2⟩, hpair, hbits⟩

theorem desde_completo (resto : Nat) :
    ∀ (faltan : Int) (col pos : Nat) (T : Finset Nat), resto ≤ 64 → 1 ≤ faltan →
      (T.card : Int) = faltan →
      (∀ j ∈ T, 64 - resto ≤ j ∧ j < 64 ∧ pos.testBit j = true) →
      (∀ i ∈ T, ∀ j ∈ T, i ≠ j → ataca i j = false) →
      ∀ b, (∀ j, b.testBit j = (col.testBit j || decide (j ∈ T))) →
        b ∈ soluciones_desde init_filas resto faltan col pos := by
  induction resto with
  | zero =>
    intro faltan col pos T _ hf hcard hmem _ b _
    have hT : T = ∅ := by
      apply Finset.eq_empty_of_forall_not_mem
      intro j hj
      have := hmem j hj
      omega
    rw [hT] at hcard
    simp at hcard
    omega
  | succ resto ih =>
    intro faltan col pos T hr hf hcard hmem hpair b hbits
    have hs64 : 63 - resto < 64 := by omega
    rw [soluciones_desde, List.mem_append, uno_desplazado hs64]
    by_cases hin : 63 - resto ∈ T
    · left
      have hbit : (pos >>> (63 - resto)) &&& 1 ≠ 0 := (bit_probado _ _).2 (hmem _ hin).2.2
      rw [if_pos hbit]
      have hcard2 : ((T.erase (63 - resto)).card : Int) = faltan - 1 := by
        rw [Finset.card_erase_of_mem hin]
        have : 0 < T.card := Finset.card_pos.2 ⟨_, hin⟩
        omega
      by_cases hl : faltan - 1 ≤ 0
      · rw [if_pos hl, List.mem_singleton]
        have hempty : T.erase (63 - resto) = ∅ := by
          apply Finset.card_eq_zero.1
          omega
        apply Nat.eq_of_testBit_eq
        intro j
        rw [hbits j, Nat.testBit_or, Nat.testBit_two_pow]
        apply or_decide_congr
        constructor
        · intro hj
          by_contra hne
          have : j ∈ T.erase (63 - resto) := Finset.mem_erase.2 ⟨fun h => hne h.symm, hj⟩
          rw [hempty] at this
          exact absurd this (Finset.not_mem_empty j)
        · intro hj
          rw [← hj]
          exact hin
      · rw [if_neg hl]
        apply ih (faltan - 1) _ _ (T.erase (63 - resto)) (by omega) (by omega) hcard2
        · intro j hj
          obtain ⟨hne, hjT⟩ := Finset.mem_erase.1 hj
          obtain ⟨h1, h2, h3⟩ := hmem j hjT
          refine ⟨by omega, h2, ?_⟩
          rw [nuevo_posibles_pow pos hs64 h2, h3, hpair _ hin j hjT (fun h => hne h.symm)]
          rfl
        · intro i hi j hj hij
          exact hpair i (Finset.mem_of_mem_erase hi) j (Finset.mem_of_mem_erase hj) hij
        · intro j
          rw [hbits j, Nat.testBit_or, Nat.testBit_two_pow, Bool.or_assoc, ← Bool.decide_or]
          apply or_decide_congr
          rw [Finset.mem_erase]
          constructor
          · intro hj
            by_cases he : 63 - resto = j
            · exact Or.inl he
            · exact Or.inr ⟨fun h => he h.symm, hj⟩
          · rintro (hj | hj)
            · rw [← hj]; exact hin
            · exact hj.2
    · right
      apply ih faltan col pos T (by omega) hf hcard _ hpair b hbits
      intro j hj
      obtain ⟨h1, h2, h3⟩ := hmem j hj
      have hne : j ≠ 63 - resto := fun h => hin (h ▸ hj)
      exact ⟨by omega, h2, h3⟩

theorem busqueda_correcta (m b : Nat) (hb : b ∈ busqueda m) : es_solucion m b := by
  rw [busqueda_eq] at hb
  obtain ⟨T, hcard, hmem, hpair, hbits⟩ := desde_correcto 64 8 0 m (le_refl _) (by norm_num) b hb
  have hT : ∀ j, b.testBit j = decide (j ∈ T) := by
    intro j
    rw [hbits j, Nat.zero_testBit, Bool.false_or]
  have hin : ∀ j, b.testBit j = true → j ∈ T := by
    intro j hj
    rw [hT j] at hj
    exact of_decide_eq_true hj
  refine ⟨?_, ?_, ?_, ?_⟩
  · apply Nat.lt_pow_two_of_testBit
    intro j hj
    rw [hT j, decide_eq_false_iff_not]
    intro h
    have := (hmem j h).2.1
    omega
  · rw [cuenta_bits_card b T hT (fun j hj => (hmem j hj).2.1)]
    exact_mod_cast hcard
  · intro j hj
    exact (hmem j (hin j hj)).2.2
  · intro i j hi hj hij
    exact (no_ataca_iff i j).1 (hpair i (hin i hi) j (hin j hj) hij)

theorem busqueda_completa (m b : Nat) (hb : es_solucion m b) : b ∈ busqueda m := by
  obtain ⟨hlt, hcount, hsub, hpair⟩ := hb
  rw [busqueda_eq]
  let T : Finset Nat := (Finset.range 64).filter (fun i => b.testBit i = true)
  have hTmem : ∀ j, j ∈ T ↔ b.testBit j = true := by
    intro j
    simp only [T, Finset.mem_filter, Finset.mem_range]
    exact ⟨fun h => h.2, fun h => ⟨testBit_menor hlt h, h⟩⟩
  have hT : ∀ j, b.testBit j = decide (j ∈ T) := by
    intro j
    rw [Bool.eq_iff_iff, decide_eq_true_eq]
    exact (hTmem j).symm
  have h64 : ∀ j ∈ T, j < 64 := fun j hj => testBit_menor hlt ((hTmem j).1 hj)
  have hcard : (T.card : Int) = 8 := by
    rw [← cuenta_bits_card b T hT h64, hcount]
    rfl
  apply desde_completo 64 8 0 m T (le_refl _) (by norm_num) hcard
  · intro j hj
    exact ⟨by omega, h64 j hj, hsub j ((hTmem j).1 hj)⟩
  · intro i hi j hj hij
    exact (no_ataca_iff i j).2 (hpair i j ((hTmem i).1 hi) ((hTmem j).1 hj) hij)
  · intro j
    rw [hT j, Nat.zero_testBit, Bool.false_or]

theorem busqueda_iff (m b : Nat) : b ∈ busqueda m ↔ es_solucion m b :=
  ⟨busqueda_correcta m b, busqueda_completa m b⟩

/-! ## What the search reports -/

theorem reportados_busqueda (m : Nat) (st : Estado) :
    reportados init_filas 8 0 0 m st = busqueda m := by
  rw [busqueda, reportados_eq, reportados_eq]

theorem busqueda_todas : busqueda 0xFFFFFFFFFFFFFFFF = encontradas tabla_todas := by
  rw [busqueda_eq]
  exact desde_todas.2

theorem busqueda_esquinas : busqueda 0xFEFFFFFFFFFFFF7E = encontradas tabla_esquinas := by
  rw [busqueda_eq]
  exact desde_esquinas.2

theorem busqueda_agresivo : busqueda 0xF07FFFFFFFFFFE7E = encontradas tabla_agresivo := by
  rw [busqueda_eq]
  exact desde_agresivo.2

theorem es_solucion_todas (m b : Nat) :
    es_solucion m b ↔
      es_solucion 0xFFFFFFFFFFFFFFFF b ∧ ∀ i, b.testBit i = true → m.testBit i = true := by
  constructor
  · rintro ⟨h1, h2, h3, h4⟩
    refine ⟨⟨h1, h2, ?_, h4⟩, h3⟩
    intro i hi
    rw [testBit_todas, decide_eq_true_eq]
    exact testBit_menor h1 hi
  · rintro ⟨⟨h1, h2, _, h4⟩, h3⟩
    exact ⟨h1, h2, h3, h4⟩

/-- C4: every board printed by `colocar (8, 0, 0, m)`, run with the table of `init_filas`
in any state, is a 64 bit word with exactly 8 bits set, all of them bits of `m`, and no two
of its squares `i ≠ j` share a row (`i / 8 = j / 8`), a column (`i % 8 = j % 8`) or a
diagonal (`|i / 8 - j / 8| = |i % 8 - j % 8|`). -/
theorem colocar_solo_soluciones (m : Nat) (st : Estado) (b : Nat)
    (hb : b ∈ reportados init_filas 8 0 0 m st) :
    b < 2 ^ 64 ∧ cuenta_bits b = 8 ∧ (∀ i, b.testBit i = true → m.testBit i = true) ∧
      ∀ i j, b.testBit i = true → b.testBit j = true → i ≠ j →
        ¬ (i / 8 = j / 8 ∨ i % 8 = j % 8 ∨
          |((i / 8 : Nat) : Int) - ((j / 8 : Nat) : Int)| =
            |((i % 8 : Nat) : Int) - ((j % 8 : Nat) : Int)|) := by
  rw [reportados_busqueda] at hb
  exact busqueda_correcta m b hb

theorem primera_solucion :
    577094088726155265 ∈ reportados init_filas 8 0 0 0xFFFFFFFFFFFFFFFF inicio := by
  rw [reportados_busqueda, busqueda_todas]
  decide!

/-- C4 at the first board of the search on the full board, queens on squares
0, 12, 23, 29, 34, 46, 49 and 59. -/
theorem colocar_solo_soluciones_witness :
    577094088726155265 ∈ reportados init_filas 8 0 0 0xFFFFFFFFFFFFFFFF inicio ∧
    cuenta_bits 577094088726155265 = 8 ∧
    ¬ (12 / 8 = 23 / 8 ∨ 12 % 8 = 23 % 8 ∨
      |((12 / 8 : Nat) : Int) - ((23 / 8 : Nat) : Int)| =
        |((12 % 8 : Nat) : Int) - ((23 % 8 : Nat) : Int)|) :=
  ⟨primera_solucion,
    (colocar_solo_soluciones 0xFFFFFFFFFFFFFFFF inicio 577094088726155265 primera_solucion).2.1,
    (colocar_solo_soluciones 0xFFFFFFFFFFFFFFFF inicio 577094088726155265
      primera_solucion).2.2.2 12 23 (by decide) (by decide) (by decide)⟩

/-- C5: for every mask `m` and every 64 bit board `b` with exactly 8 bits set, all of them
in `m`, no two of them on a common row, column or diagonal, the call `colocar (8, 0, 0, m)`
prints `b`; and the boards it prints are exactly the boards printed for the full board whose
squares all lie in `m`. -/
theorem colocar_todas_las_soluciones (m : Nat) (st : Estado) (b : Nat) :
    ((b < 2 ^ 64 ∧ cuenta_bits b = 8 ∧ (∀ i, b.testBit i = true → m.testBit i = true) ∧
      ∀ i j, b.testBit i = true → b.testBit j = true → i ≠ j →
        ¬ (i / 8 = j / 8 ∨ i % 8 = j % 8 ∨
          |((i / 8 : Nat) : Int) - ((j / 8 : Nat) : Int)| =
            |((i % 8 : Nat) : Int) - ((j % 8 : Nat) : Int)|)) →
      b ∈ reportados init_filas 8 0 0 m st) ∧
    (b ∈ reportados init_filas 8 0 0 m st ↔
      b ∈ reportados init_filas 8 0 0 0xFFFFFFFFFFFFFFFF st ∧
        ∀ i, b.testBit i = true → m.testBit i = true) := by
  rw [reportados_busqueda, reportados_busqueda]
  refine ⟨busqueda_completa m b, ?_⟩
  rw [busqueda_iff, busqueda_iff]
  exact es_solucion_todas m b

/-! ## The two reduced boards lose no class of solutions -/

theorem primera_busqueda : 577094088726155265 ∈ busqueda 0xFFFFFFFFFFFFFFFF := by
  rw [busqueda_todas]
  decide!

/-- C6: every board printed by the search on the full board has a turn by 0, 90, 180 or
270 degrees that the search on `0xFEFFFFFFFFFFFF7E` prints, and it has at most one queen on
the four corner squares. -/
theorem esquinas_sin_perdida (s : Nat) (hs : s ∈ busqueda 0xFFFFFFFFFFFFFFFF) :
    (∃ t ∈ giros s, t ∈ busqueda 0xFEFFFFFFFFFFFF7E) ∧ cuenta_bits (s &&& ESQUINAS) ≤ 1 := by
  rw [busqueda_todas] at hs
  rw [busqueda_esquinas]
  revert s
  decide!

/-- C6 at the first board of the full search, which has a queen on the corner square 0. -/
theorem esquinas_sin_perdida_witness :
    577094088726155265 ∈ busqueda 0xFFFFFFFFFFFFFFFF ∧
    577094088726155265 ∉ busqueda 0xFEFFFFFFFFFFFF7E ∧
    (∃ t ∈ giros 577094088726155265, t ∈ busqueda 0xFEFFFFFFFFFFFF7E) ∧
    cuenta_bits (577094088726155265 &&& ESQUINAS) ≤ 1 :=
  ⟨primera_busqueda, by rw [busqueda_esquinas]; decide!,
    esquinas_sin_perdida 577094088726155265 primera_busqueda⟩

/-- C7: every board printed by the search on the full board has an image under one of the
eight symmetries of the square (a turn by 0, 90, 180 or 270 degrees, after a reflection or
not) that the search on `0xF07FFFFFFFFFFE7E` prints. -/
theorem agresivo_sin_perdida (s : Nat) (hs : s ∈ busqueda 0xFFFFFFFFFFFFFFFF) :
    ∃ t ∈ simetrias s, t ∈ busqueda 0xF07FFFFFFFFFFE7E := by
  rw [busqueda_todas] at hs
  rw [busqueda_agresivo]
  revert s
  decide!

/-- C7 at the first board of the full search, which the reduced search does not print. -/
theorem agresivo_sin_perdida_witness :
    577094088726155265 ∈ busqueda 0xFFFFFFFFFFFFFFFF ∧
    577094088726155265 ∉ busqueda 0xF07FFFFFFFFFFE7E ∧
    ∃ t ∈ simetrias 577094088726155265, t ∈ busqueda 0xF07FFFFFFFFFFE7E :=
  ⟨primera_busqueda, by rw [busqueda_agresivo]; decide!,
    agresivo_sin_perdida 577094088726155265 primera_busqueda⟩

/-! ## The table of lines -/

/-- C8: after `init_filas` the table has 42 entries, none of them zero; the row masks
`filas[0..7]` are pairwise disjoint and their union is the whole board, and so are the
column masks `filas[8..15]`. -/
theorem filas_no_vacias_y_particion :
    init_filas.length = 42 ∧ (∀ k < 42, init_filas.getD k 0 ≠ 0) ∧
    (∀ i < 8, ∀ j < 8, i ≠ j → init_filas.getD i 0 &&& init_filas.getD j 0 = 0) ∧
    (List.range 8).foldl (fun a k => a ||| init_filas.getD k 0) 0 = 0xFFFFFFFFFFFFFFFF ∧
    (∀ i < 8, ∀ j < 8, i ≠ j →
      init_filas.getD (8 + i) 0 &&& init_filas.getD (8 + j) 0 = 0) ∧
    (List.range 8).foldl (fun a k => a ||| init_filas.getD (8 + k) 0) 0 =
      0xFFFFFFFFFFFFFFFF := by
  decide!

theorem and_pow_eq_zero (f i : Nat) : f &&& 2 ^ i = 0 ↔ f.testBit i = false := by
  constructor
  · intro h
    have hk := congrArg (fun x => Nat.testBit x i) h
    simpa [Nat.testBit_two_pow] using hk
  · intro h
    apply Nat.eq_of_testBit_eq
    intro k
    rw [Nat.testBit_and, Nat.testBit_two_pow, Nat.zero_testBit]
    by_cases hik : i = k
    · rw [← hik, h]; rfl
    · simp [hik]

theorem lineas_comunes (i j : Nat) (hi : i < 64) (hj : j < 64) :
    (∃ k < 42, (init_filas.getD k 0).testBit i = true ∧ (init_filas.getD k 0).testBit j = true) ↔
      ataca i j = true := by
  rw [← ataque_testBit i hi j hj, ← lineas_ataque i hi]
  unfold lineas_de
  rw [foldl_lineas_testBit, Nat.zero_testBit, Bool.false_or, List.any_eq_true]
  constructor
  · rintro ⟨k, hk, h1, h2⟩
    refine ⟨init_filas.getD k 0, ?_, ?_⟩
    · rw [List.getD_eq_getElem _ _ (by rw [init_filas_length]; exact hk)]
      exact List.getElem_mem _
    · rw [Bool.and_eq_true, Bool.not_eq_true', decide_eq_false_iff_not, and_pow_eq_zero,
        Bool.not_eq_false]
      exact ⟨h1, h2⟩
  · rintro ⟨f, hf, h⟩
    rw [Bool.and_eq_true, Bool.not_eq_true', decide_eq_false_iff_not, and_pow_eq_zero,
      Bool.not_eq_false] at h
    obtain ⟨k, hk, rfl⟩ := List.getElem_of_mem hf
    refine ⟨k, by rw [← init_filas_length]; exact hk, ?_⟩
    rw [List.getD_eq_getElem _ _ hk]
    exact h

/-- C9: after `init_filas` every entry of `filas` is one whole line of the board whose
square `i` stands at row `i / 8`, column `i % 8`: `filas[k]` is row `k`, `filas[8 + k]` is
column `k`, `filas[16]`, `filas[18 + k]` and `filas[24 + k]` are the 13 diagonals on which
row minus column is 0, `k + 1` and `-(k + 1)`, and `filas[17]`, `filas[30 + k]` and
`filas[36 + k]` are the 13 diagonals on which row plus column is 7, `8 + k` and `6 - k`
(`k < 6`); the 26 diagonal entries are pairwise distinct.  Hence two distinct squares lie in
a common entry exactly when they share a row, a column or a diagonal. -/
theorem filas_lineas_completas :
    (∀ k < 42, init_filas.getD k 0 < 2 ^ 64) ∧
    (∀ k < 8, ∀ i < 64, (init_filas.getD k 0).testBit i = decide (i / 8 = k)) ∧
    (∀ k < 8, ∀ i < 64, (init_filas.getD (8 + k) 0).testBit i = decide (i % 8 = k)) ∧
    (∀ i < 64, (init_filas.getD 16 0).testBit i = decide (i / 8 = i % 8)) ∧
    (∀ k < 6, ∀ i < 64,
      (init_filas.getD (18 + k) 0).testBit i = decide (i / 8 = i % 8 + (k + 1))) ∧
    (∀ k < 6, ∀ i < 64,
      (init_filas.getD (24 + k) 0).testBit i = decide (i / 8 + (k + 1) = i % 8)) ∧
    (∀ i < 64, (init_filas.getD 17 0).testBit i = decide (i / 8 + i % 8 = 7)) ∧
    (∀ k < 6, ∀ i < 64,
      (init_filas.getD (30 + k) 0).testBit i = decide (i / 8 + i % 8 = 8 + k)) ∧
    (∀ k < 6, ∀ i < 64,
      (init_filas.getD (36 + k) 0).testBit i = decide (i / 8 + i % 8 = 6 - k)) ∧
    (init_filas.drop 16).length = 26 ∧ (init_filas.drop 16).Nodup ∧
    ∀ i < 64, ∀ j < 64, i ≠ j →
      ((∃ k < 42, (init_filas.getD k 0).testBit i = true ∧
          (init_filas.getD k 0).testBit j = true) ↔
        (i / 8 = j / 8 ∨ i % 8 = j % 8 ∨
          |((i / 8 : Nat) : Int) - ((j / 8 : Nat) : Int)| =
            |((i % 8 : Nat) : Int) - ((j % 8 : Nat) : Int)|)) := by
  refine ⟨by decide!, by decide!, by decide!, by decide!, by decide!, by decide!, by decide!,
    by decide!, by decide!, by decide!, by decide!, ?_⟩
  intro i hi j hj _
  rw [lineas_comunes i j hi hj]
  exact ataca_iff i j

/-! ## The text of a board -/

theorem foldl_letra (f : Nat → Char) (l : List Nat) :
    ∀ out : List Char, l.foldl (fun out x => out ++ [f x]) out = out ++ l.map f := by
  induction l with
  | nil => intro out; simp
  | cons x l ih => intro out; simp [ih]

theorem foldl_linea (g : Nat → List Char) (l : List Nat) :
    ∀ out : List Char, l.foldl (fun out y => out ++ g y) out = out ++ (l.map g).flatten := by
  induction l with
  | nil => intro out; simp
  | cons y l ih => intro out; simp [ih]

theorem letra_bit (t k : Nat) :
    (if (t >>> k) &&& 1 ≠ 0 then 'X' else '.') = if t.testBit k = true then 'X' else '.' := by
  by_cases h : t.testBit k = true
  · rw [if_pos h, if_pos ((bit_probado t k).2 h)]
  · rw [if_neg h, if_neg (fun hh => h ((bit_probado t k).1 hh))]

theorem imprimir_lineas (t : Nat) :
    imprimir_tablero t =
      ((List.range 8).map (fun row =>
        (List.range 8).map (fun col => if t.testBit (63 - (8 * row + col)) = true then 'X' else '.')
          ++ ['\n'])).flatten := by
  unfold imprimir_tablero
  simp only [foldl_letra, List.append_assoc, letra_bit]
  rw [foldl_linea, List.nil_append]

theorem letra_iff (a b : Bool) :
    ((if a = true then 'X' else '.') = (if b = true then 'X' else '.')) ↔ a = b := by
  cases a <;> cases b <;> simp

theorem imprimir_inyectiva (t u : Nat) (ht : t < 2 ^ 64) (hu : u < 2 ^ 64)
    (h : imprimir_tablero t = imprimir_tablero u) : t = u := by
  rw [imprimir_lineas, imprimir_lineas] at h
  have hr : List.range 8 = [0, 1, 2, 3, 4, 5, 6, 7] := by decide
  rw [hr] at h
  simp only [List.map_cons, List.map_nil, List.flatten_cons, List.flatten_nil, List.cons_append,
    List.nil_append, List.append_nil, List.cons.injEq, letra_iff, and_true, true_and,
    Nat.reduceMul, Nat.reduceAdd, Nat.reduceSub] at h
  apply Nat.eq_of_testBit_eq
  intro i
  by_cases hi : i < 64
  · interval_cases i <;> simp only [h]
  · rw [testBit_alto ht (by omega), testBit_alto hu (by omega)]

theorem imprimir_letras (t : Nat) : ∀ c ∈ imprimir_tablero t, c = 'X' ∨ c = '.' ∨ c = '\n' := by
  intro c hc
  rw [imprimir_lineas] at hc
  simp only [List.mem_flatten, List.mem_map, List.mem_range] at hc
  obtain ⟨l, ⟨row, _, rfl⟩, hc⟩ := hc
  rw [List.mem_append, List.mem_map, List.mem_singleton] at hc
  rcases hc with ⟨col, _, rfl⟩ | rfl
  · by_cases hb : t.testBit (63 - (8 * row + col)) = true
    · left; rw [if_pos hb]
    · right; left; rw [if_neg hb]
  · right; right; rfl

/-- C10: for every board `t` the text written by `imprimir_tablero` is 8 lines, the top
row first, each of 8 characters followed by a newline, where the character of line `row` at
position `col` is `X` if bit `63 - (8 * row + col)` of `t` is set and `.` if not; it has 72
characters, each of them `X`, `.` or the newline, and two different 64 bit boards never
give the same text. -/
theorem imprimir_tablero_texto (t : Nat) :
    imprimir_tablero t =
      ((List.range 8).map (fun row =>
        (List.range 8).map (fun col => if t.testBit (63 - (8 * row + col)) = true then 'X' else '.')
          ++ ['\n'])).flatten ∧
    (imprimir_tablero t).length = 72 ∧
    (∀ c ∈ imprimir_tablero t, c = 'X' ∨ c = '.' ∨ c = '\n') ∧
    (∀ u, t < 2 ^ 64 → u < 2 ^ 64 → imprimir_tablero t = imprimir_tablero u → t = u) := by
  refine ⟨imprimir_lineas t, ?_, imprimir_letras t,
    fun u ht hu h => imprimir_inyectiva t u ht hu h⟩
  rw [imprimir_lineas]
  have hr : List.range 8 = [0, 1, 2, 3, 4, 5, 6, 7] := by decide
  rw [hr]
  simp

/-! ## The calls made by one invocation -/

theorem hijos_desde_mem (filas : List Nat) (faltan : Int) (col pos : Nat) (h : Marco) :
    ∀ resto, resto ≤ 64 →
      (h ∈ hijos_desde filas resto faltan col pos ↔
        ∃ i, 64 - resto ≤ i ∧ i < 64 ∧ pos.testBit i = true ∧
          h = { faltan := faltan - 1, siguiente := i + 1, colocadas := col ||| 2 ^ i,
                posibles := nuevo_posibles filas (2 ^ i) pos }) := by
  intro resto
  induction resto with
  | zero =>
    intro _
    simp only [hijos_desde, List.not_mem_nil, false_iff]
    rintro ⟨i, h1, h2, _⟩
    omega
  | succ resto ih =>
    intro hr
    have hs64 : 63 - resto < 64 := by omega
    rw [hijos_desde, List.mem_append, ih (by omega), uno_desplazado hs64]
    constructor
    · rintro (hm | ⟨i, h1, h2, h3, h4⟩)
      · by_cases hbit : (pos >>> (63 - resto)) &&& 1 ≠ 0
        · rw [if_pos hbit, List.mem_singleton] at hm
          exact ⟨63 - resto, by omega, hs64, (bit_probado _ _).1 hbit, hm⟩
        · rw [if_neg hbit] at hm
          exact absurd hm (List.not_mem_nil _)
      · exact ⟨i, by omega, h2, h3, h4⟩
    · rintro ⟨i, h1, h2, h3, h4⟩
      by_cases hi : i = 63 - resto
      · left
        subst hi
        rw [if_pos ((bit_probado _ _).2 h3), List.mem_singleton]
        exact h4
      · right
        exact ⟨i, by omega, h2, h3, h4⟩

theorem hijos_mem (filas : List Nat) (f h : Marco) :
    h ∈ hijos filas f ↔
      0 < f.faltan ∧ ∃ i, f.siguiente ≤ i ∧ i < 64 ∧ f.posibles.testBit i = true ∧
        h = { faltan := f.faltan - 1, siguiente := i + 1, colocadas := f.colocadas ||| 2 ^ i,
              posibles := nuevo_posibles filas (2 ^ i) f.posibles } := by
  unfold hijos
  by_cases hf : f.faltan ≤ 0
  · rw [if_pos hf]
    simp only [List.not_mem_nil, false_iff]
    rintro ⟨h1, _⟩
    omega
  · rw [if_neg hf, hijos_desde_mem filas _ _ _ h _ (by omega)]
    constructor
    · rintro ⟨i, h1, h2, h3, h4⟩
      exact ⟨by omega, i, by omega, h2, h3, h4⟩
    · rintro ⟨_, i, h1, h2, h3, h4⟩
      exact ⟨i, by omega, h2, h3, h4⟩

theorem desde_hijos (filas : List Nat) (faltan : Int) (col pos : Nat) :
    ∀ resto, resto ≤ 64 → ∀ st : Estado,
      (hijos_desde filas resto faltan col pos).foldl (fun st h => colocar_en filas h st) st =
        agregar st (llamadas_desde filas resto faltan pos)
          (soluciones_desde filas resto faltan col pos) := by
  intro resto
  induction resto with
  | zero =>
    intro _ st
    simp [hijos_desde, llamadas_desde, soluciones_desde, agregar_cero]
  | succ resto ih =>
    intro hr st
    have hr2 : 64 - (63 - resto + 1) = resto := by omega
    rw [hijos_desde, llamadas_desde, soluciones_desde, List.foldl_append, ih (by omega)]
    by_cases hbit : (pos >>> (63 - resto)) &&& 1 ≠ 0
    · simp only [if_pos hbit, List.foldl_cons, List.foldl_nil, colocar_en]
      rw [colocar_eq, hr2]
      by_cases hf : faltan - 1 ≤ 0
      · simp only [if_pos hf, agregar_agregar]
      · simp only [if_neg hf, agregar_agregar]
    · simp only [if_neg hbit, List.foldl_nil, Nat.zero_add, List.nil_append]

/-- An invocation of `colocar` counts itself and then either prints its board or runs
`colocar` on each of its calls in turn. -/
theorem colocar_hijos (filas : List Nat) (f : Marco) (st : Estado) :
    colocar_en filas f st =
      if f.faltan ≤ 0 then
        { llamadas_a_colocar := st.llamadas_a_colocar + 1, soluciones := st.soluciones + 1,
          salida := st.salida ++ [(st.soluciones + 1, f.colocadas)] }
      else
        (hijos filas f).foldl (fun st h => colocar_en filas h st)
          { st with llamadas_a_colocar := st.llamadas_a_colocar + 1 } := by
  unfold hijos
  by_cases hf : f.faltan ≤ 0
  · simp only [if_pos hf]
    show colocar filas f.faltan f.siguiente f.colocadas f.posibles st = _
    rw [colocar_eq, if_pos hf]
    cases st
    simp [agregar, numerar]
  · simp only [if_neg hf]
    rw [desde_hijos filas _ _ _ (64 - f.siguiente) (by omega), agregar_llamada]
    show colocar filas f.faltan f.siguiente f.colocadas f.posibles st = _
    rw [colocar_eq, if_neg hf]

/-! ## The checked program never fails -/

theorem ok_bind {α β : Type} (a : α) (f : α → Except Fallo β) :
    (Except.ok a >>= f) = f a := rfl

theorem foldlM_ok {α β : Type} (f : β → α → Except Fallo β) (g : β → α → β) (l : List α)
    (h : ∀ x ∈ l, ∀ acc, f acc x = .ok (g acc x)) :
    ∀ acc, l.foldlM f acc = .ok (l.foldl g acc) := by
  induction l with
  | nil => intro acc; rfl
  | cons x l ih =>
    intro acc
    rw [List.foldlM_cons, h x (List.mem_cons_self x l), ok_bind, List.foldl_cons]
    exact ih (fun y hy => h y (List.mem_cons_of_mem x hy)) _

theorem desplazar_der_ok (cota x s : Nat) (h : s ≤ cota) :
    desplazar_der cota x (s : Int) = .ok (x >>> s) := by
  unfold desplazar_der
  rw [if_pos ⟨by omega, by omega⟩, Int.toNat_ofNat]

theorem desplazar_izq_ok (cota x s : Nat) (h : s ≤ cota) :
    desplazar_izq cota x (s : Int) = .ok ((x <<< s) % 2 ^ 64) := by
  unfold desplazar_izq
  rw [if_pos ⟨by omega, by omega⟩, Int.toNat_ofNat]

theorem leer_fila_ok (filas : List Nat) (k : Nat) (h : k < 42) :
    leer_fila filas (k : Int) = .ok (filas.getD k 0) := by
  unfold leer_fila
  rw [if_pos ⟨by omega, by omega⟩, Int.toNat_ofNat]

theorem nuevo_posibles_seguro_ok (filas : List Nat) (b pos : Nat) :
    nuevo_posibles_seguro filas b pos = .ok (nuevo_posibles filas b pos) := by
  unfold nuevo_posibles_seguro nuevo_posibles
  apply foldlM_ok
  intro k hk acc
  rw [leer_fila_ok filas k (List.mem_range.1 hk), ok_bind]
  rfl

theorem seguro_ambos (filas : List Nat) (fuel : Nat) :
    (∀ (faltan : Int) (sig col pos : Nat) (st : Estado), 2 * (64 - sig) + 2 ≤ fuel →
      colocar_seguro filas fuel faltan (sig : Int) col pos st =
        .ok (colocar filas faltan sig col pos st)) ∧
    (∀ (faltan : Int) (sig col pos : Nat) (st : Estado), 2 * (64 - sig) + 1 ≤ fuel →
      mientras_seguro filas fuel faltan (sig : Int) col pos st =
        .ok (agregar st (llamadas_desde filas (64 - sig) faltan pos)
          (soluciones_desde filas (64 - sig) faltan col pos))) := by
  induction fuel with
  | zero =>
    exact ⟨fun _ _ _ _ _ h => absurd h (by omega), fun _ _ _ _ _ h => absurd h (by omega)⟩
  | succ fuel ih =>
    obtain ⟨ihA, ihB⟩ := ih
    constructor
    · intro faltan sig col pos st h
      rw [colocar_seguro, colocar_eq]
      by_cases hf : faltan ≤ 0
      · simp only [if_pos hf]
        cases st
        simp [agregar, numerar]
      · simp only [if_neg hf]
        rw [ihB _ _ _ _ _ (by omega), agregar_llamada]
    · intro faltan sig col pos st h
      rw [mientras_seguro]
      by_cases hs : sig < 64
      · have hs' : (sig : Int) < 64 := by omega
        have hcast : (sig : Int) + 1 = ((sig + 1 : Nat) : Int) := by push_cast; rfl
        obtain ⟨r, hr⟩ : ∃ r, 64 - sig = r + 1 := ⟨63 - sig, by omega⟩
        have hr1 : 63 - r = sig := by omega
        have hr2 : 64 - (sig + 1) = r := by omega
        rw [if_pos hs', desplazar_der_ok 63 pos sig (by omega), ok_bind, hcast,
          hr, llamadas_desde, soluciones_desde, hr1]
        by_cases hb : (pos >>> sig) &&& 1 ≠ 0
        · simp only [if_pos hb]
          rw [desplazar_izq_ok 63 1 sig (by omega), ok_bind, nuevo_posibles_seguro_ok, ok_bind,
            ihA _ _ _ _ _ (by omega), ok_bind, ihB _ _ _ _ _ (by omega), colocar_eq, hr2]
          by_cases hf : faltan - 1 ≤ 0
          · simp only [if_pos hf, agregar_agregar]
          · simp only [if_neg hf, agregar_agregar]
        · simp only [if_neg hb]
          rw [show (pure st : Except Fallo Estado) = Except.ok st from rfl, ok_bind,
            ihB _ _ _ _ _ (by omega), hr2]
          simp only [List.nil_append, Nat.zero_add]
      · have hs' : ¬ (sig : Int) < 64 := by omega
        have h0 : 64 - sig = 0 := by omega
        rw [if_neg hs', h0]
        simp [llamadas_desde, soluciones_desde, agregar_cero]

theorem colocar_seguro_ok (filas : List Nat) (fuel : Nat) (faltan sig : Int) (col pos : Nat)
    (st : Estado) (hsig : 0 ≤ sig) (h : 2 * (64 - sig.toNat) + 2 ≤ fuel) :
    colocar_seguro filas fuel faltan sig col pos st =
      .ok (colocar filas faltan sig.toNat col pos st) := by
  have hc : sig = (sig.toNat : Int) := (Int.toNat_of_nonneg hsig).symm
  have := (seguro_ambos filas fuel).1 faltan sig.toNat col pos st h
  rwa [← hc] at this

theorem init_filas_seguro_ok : init_filas_seguro 56 = .ok init_filas := by
  rfl

theorem init_filas_seguro_justo : init_filas_seguro 55 = .error .desplazamiento := by
  rfl

theorem imprimir_tablero_seguro_ok (t : Nat) :
    imprimir_tablero_seguro 63 t = .ok (imprimir_tablero t) := by
  unfold imprimir_tablero_seguro imprimir_tablero
  apply foldlM_ok
  intro y hy out
  have hy8 : y < 8 := List.mem_range.1 hy
  have hin : ∀ acc : List Char,
      (List.range 8).foldlM
        (fun out (x : Nat) => do
          let r ← desplazar_der 63 t (63 - (8 * (y : Int) + (x : Int)))
          pure (out ++ [if r &&& 1 ≠ 0 then 'X' else '.']))
        acc =
      .ok ((List.range 8).foldl
        (fun out x => out ++ [if (t >>> (63 - (8 * y + x))) &&& 1 ≠ 0 then 'X' else '.']) acc) := by
    apply foldlM_ok
    intro x hx acc
    have hx8 : x < 8 := List.mem_range.1 hx
    have hc : (63 - (8 * (y : Int) + (x : Int))) = ((63 - (8 * y + x) : Nat) : Int) := by omega
    rw [hc, desplazar_der_ok 63 t _ (by omega), ok_bind]
    rfl
  rw [hin, ok_bind]
  rfl

/-! ## The empty board and the base case -/

/-- C12: the three constants of `tableros_iniciales` have 64, 61 and 56 squares; the
second is the full board without the corner squares 0, 7 and 56, the corner 63 kept; the
third is the full board without the eight squares 0, 7, 8, 55, 56, 57, 58 and 59, and each
of its squares is a square of the second. -/
theorem tableros_iniciales_casillas :
    tableros_iniciales.length = 3 ∧
    (∀ k < 3, tableros_iniciales.getD k 0 < 2 ^ 64) ∧
    cuenta_bits (tableros_iniciales.getD 0 0) = 64 ∧
    cuenta_bits (tableros_iniciales.getD 1 0) = 61 ∧
    cuenta_bits (tableros_iniciales.getD 2 0) = 56 ∧
    (∀ i < 64, (tableros_iniciales.getD 1 0).testBit i = decide (i ≠ 0 ∧ i ≠ 7 ∧ i ≠ 56)) ∧
    cuenta_bits (tableros_iniciales.getD 1 0 &&& ESQUINAS) = 1 ∧
    (tableros_iniciales.getD 1 0).testBit 63 = true ∧
    (∀ i < 64, (tableros_iniciales.getD 2 0).testBit i =
      decide (i ∉ [0, 7, 8, 55, 56, 57, 58, 59])) ∧
    cuenta_bits (tableros_iniciales.getD 2 0 ^^^ 0xFFFFFFFFFFFFFFFF) = 8 ∧
    tableros_iniciales.getD 2 0 &&& tableros_iniciales.getD 1 0 = tableros_iniciales.getD 2 0 := by
  decide!

/-! ## The numbers printed -/

theorem numerar_fst (l : List Nat) :
    ∀ s : Int, (numerar s l).map Prod.fst = (List.range l.length).map (fun (k : Nat) => s + (k : Int) + 1) := by
  induction l with
  | nil => intro s; rfl
  | cons b l ih =>
    intro s
    rw [numerar, List.map_cons, ih, List.length_cons, List.range_succ_eq_map, List.map_cons,
      List.map_map]
    simp only [Nat.cast_zero, add_zero, List.cons.injEq, true_and]
    apply List.map_congr_left
    intro k _
    simp only [Function.comp, Nat.cast_succ]
    ring

/-! ## The update of the available squares -/

theorem no_ataca_tabla (i j : Nat) (hi : i < 64) (hj : j < 64) :
    ataca i j = false ↔
      ∀ k < 42, (init_filas.getD k 0).testBit i = true → (init_filas.getD k 0).testBit j = false := by
  rw [← Bool.not_eq_true, ← lineas_comunes i j hi hj]
  constructor
  · intro h k hk h1
    by_contra h2
    exact h ⟨k, hk, h1, by simpa using h2⟩
  · rintro h ⟨k, hk, h1, h2⟩
    rw [h k hk h1] at h2
    exact Bool.false_ne_true h2

theorem nuevo_posibles_iff {pos : Nat} (hp : pos < 2 ^ 64) {i : Nat} (hi : i < 64) (j : Nat) :
    (nuevo_posibles init_filas ((1 <<< i) % 2 ^ 64) pos).testBit j = true ↔
      pos.testBit j = true ∧ ataca i j = false := by
  by_cases hj : j < 64
  · rw [nuevo_posibles_bit pos hi hj, Bool.and_eq_true, Bool.not_eq_true']
  · rw [testBit_alto (nuevo_posibles_lt hp _) (by omega), testBit_alto hp (by omega)]
    simp

/-- C14: for a 64 bit word `posibles` and a square `i < 64` that is set in it, the word
`nuevo_posibles` computed by the loop over `filas` has bit `j` set exactly when `posibles`
has it and no entry of `filas` holds both `i` and `j`, that is when `j` is set in
`posibles`, differs from `i` and shares no row, column or diagonal with `i`.  So it is a
part of `posibles` without the square `i`; and every `colocar` with `faltan > 0` whose scan
reaches `i` calls `colocar` with `faltan - 1`, `i + 1`, `colocadas | (1 << i)` and this word. -/
theorem nuevo_posibles_actualiza (posibles : Nat) (hp : posibles < 2 ^ 64) (i : Nat)
    (hi : i < 64) (hbit : posibles.testBit i = true) :
    (∀ j, (nuevo_posibles init_filas ((1 <<< i) % 2 ^ 64) posibles).testBit j = true ↔
      posibles.testBit j = true ∧
        ∀ k < 42, (init_filas.getD k 0).testBit i = true →
          (init_filas.getD k 0).testBit j = false) ∧
    (∀ j, (nuevo_posibles init_filas ((1 <<< i) % 2 ^ 64) posibles).testBit j = true ↔
      posibles.testBit j = true ∧ j ≠ i ∧
        ¬ (i / 8 = j / 8 ∨ i % 8 = j % 8 ∨
          |((i / 8 : Nat) : Int) - ((j / 8 : Nat) : Int)| =
            |((i % 8 : Nat) : Int) - ((j % 8 : Nat) : Int)|)) ∧
    (∀ j, (nuevo_posibles init_filas ((1 <<< i) % 2 ^ 64) posibles).testBit j = true →
      posibles.testBit j = true) ∧
    (nuevo_posibles init_filas ((1 <<< i) % 2 ^ 64) posibles).testBit i = false ∧
    ∀ (faltan : Int) (sig col : Nat), 0 < faltan → sig ≤ i →
      Marco.mk (faltan - 1) (i + 1) (col ||| (1 <<< i) % 2 ^ 64)
          (nuevo_posibles init_filas ((1 <<< i) % 2 ^ 64) posibles) ∈
        hijos init_filas (Marco.mk faltan sig col posibles) := by
  refine ⟨?_, ?_, ?_, ?_, ?_⟩
  · intro j
    rw [nuevo_posibles_iff hp hi]
    by_cases hj : j < 64
    · rw [no_ataca_tabla i j hi hj]
    · have hpj : posibles.testBit j = false := testBit_alto hp (by omega)
      simp [hpj]
  · intro j
    rw [nuevo_posibles_iff hp hi, no_ataca_iff]
    constructor
    · rintro ⟨h1, h2⟩
      refine ⟨h1, ?_, h2⟩
      rintro rfl
      exact h2 (Or.inl rfl)
    · rintro ⟨h1, _, h2⟩
      exact ⟨h1, h2⟩
  · intro j hj
    exact ((nuevo_posibles_iff hp hi j).1 hj).1
  · rw [← Bool.not_eq_true, nuevo_posibles_iff hp hi, ataca_self]
    simp
  · intro faltan sig col hf hs
    rw [hijos_mem, uno_desplazado hi]
    exact ⟨hf, i, hs, hi, hbit, rfl⟩

/-- C14 on the full board at the square 27: the square itself and the square 36 of its
diagonal are removed, the square 44 is kept. -/
theorem nuevo_posibles_actualiza_witness :
    (nuevo_posibles init_filas ((1 <<< 27) % 2 ^ 64) 0xFFFFFFFFFFFFFFFF).testBit 27 = false ∧
    ((nuevo_posibles init_filas ((1 <<< 27) % 2 ^ 64) 0xFFFFFFFFFFFFFFFF).testBit 36 = true ↔
      Nat.testBit 0xFFFFFFFFFFFFFFFF 36 = true ∧ 36 ≠ 27 ∧
        ¬ (27 / 8 = 36 / 8 ∨ 27 % 8 = 36 % 8 ∨
          |((27 / 8 : Nat) : Int) - ((36 / 8 : Nat) : Int)| =
            |((27 % 8 : Nat) : Int) - ((36 % 8 : Nat) : Int)|)) ∧
    Marco.mk (8 - 1) (27 + 1) (0 ||| (1 <<< 27) % 2 ^ 64)
        (nuevo_posibles init_filas ((1 <<< 27) % 2 ^ 64) 0xFFFFFFFFFFFFFFFF) ∈
      hijos init_filas (Marco.mk 8 0 0 0xFFFFFFFFFFFFFFFF) :=
  ⟨(nuevo_posibles_actualiza 0xFFFFFFFFFFFFFFFF (by decide) 27 (by decide) (by decide)).2.2.2.1,
    (nuevo_posibles_actualiza 0xFFFFFFFFFFFFFFFF (by decide) 27 (by decide) (by decide)).2.1 36,
    (nuevo_posibles_actualiza 0xFFFFFFFFFFFFFFFF (by decide) 27 (by decide)
      (by decide)).2.2.2.2 8 0 0 (by decide) (by decide)⟩

/-! ## Fewer squares, less work -/

theorem desde_monotona (resto : Nat) :
    ∀ (faltan : Int) (col p1 p2 : Nat), resto ≤ 64 →
      (∀ j, j < 64 → p1.testBit j = true → p2.testBit j = true) →
      llamadas_desde init_filas resto faltan p1 ≤ llamadas_desde init_filas resto faltan p2 ∧
      (soluciones_desde init_filas resto faltan col p1).length ≤
        (soluciones_desde init_filas resto faltan col p2).length := by
  induction resto with
  | zero => intro _ _ _ _ _ _; exact ⟨le_refl _, le_refl _⟩
  | succ resto ih =>
    intro faltan col p1 p2 hr hsub
    have hs64 : 63 - resto < 64 := by omega
    obtain ⟨t1, t2⟩ := ih faltan col p1 p2 (by omega) hsub
    rw [llamadas_desde, llamadas_desde, soluciones_desde, soluciones_desde]
    simp only [List.length_append]
    by_cases hb1 : (p1 >>> (63 - resto)) &&& 1 ≠ 0
    · have hb2 : (p2 >>> (63 - resto)) &&& 1 ≠ 0 :=
        (bit_probado _ _).2 (hsub _ hs64 ((bit_probado _ _).1 hb1))
      simp only [if_pos hb1, if_pos hb2]
      by_cases hf : faltan - 1 ≤ 0
      · simp only [if_pos hf, List.length_singleton]
        omega
      · simp only [if_neg hf]
        have hsub2 : ∀ j, j < 64 →
            (nuevo_posibles init_filas ((1 <<< (63 - resto)) % 2 ^ 64) p1).testBit j = true →
            (nuevo_posibles init_filas ((1 <<< (63 - resto)) % 2 ^ 64) p2).testBit j = true := by
          intro j hj h
          rw [nuevo_posibles_bit _ hs64 hj, Bool.and_eq_true] at h ⊢
          exact ⟨hsub j hj h.1, h.2⟩
        obtain ⟨c1, c2⟩ := ih (faltan - 1) (col ||| (1 <<< (63 - resto)) % 2 ^ 64) _ _
          (by omega) hsub2
        omega
    · simp only [if_neg hb1, List.length_nil]
      omega

/-- C16: if every square of `m1` is a square of `m2` (`m1 & m2 = m1`) then the search on
`m1` makes at most as many calls of `colocar` as the search on `m2` and reports at most as
many solutions. -/
theorem menos_casillas_menos_trabajo (m1 m2 : Nat) (h : m1 &&& m2 = m1) :
    (colocar init_filas 8 0 0 m1 inicio).llamadas_a_colocar ≤
      (colocar init_filas 8 0 0 m2 inicio).llamadas_a_colocar ∧
    (colocar init_filas 8 0 0 m1 inicio).soluciones ≤
      (colocar init_filas 8 0 0 m2 inicio).soluciones ∧
    (busqueda m1).length ≤ (busqueda m2).length := by
  have hsub : ∀ j, j < 64 → m1.testBit j = true → m2.testBit j = true := by
    intro j _ hj
    rw [← h, Nat.testBit_and, Bool.and_eq_true] at hj
    exact hj.2
  obtain ⟨h1, h2⟩ := desde_monotona 64 8 0 m1 m2 (le_refl _) hsub
  rw [colocar_inicio, colocar_inicio, busqueda_eq, busqueda_eq]
  obtain ⟨a1, a2, _⟩ := agregar_inicio (1 + llamadas_desde init_filas 64 8 m1)
    (soluciones_desde init_filas 64 8 0 m1)
  obtain ⟨b1, b2, _⟩ := agregar_inicio (1 + llamadas_desde init_filas 64 8 m2)
    (soluciones_desde init_filas 64 8 0 m2)
  rw [a1, a2, b1, b2]
  exact ⟨by exact_mod_cast Nat.add_le_add_left h1 1, by exact_mod_cast h2, h2⟩

/-- C16 for the second board of `main` inside the first. -/
theorem menos_casillas_menos_trabajo_witness :
    0xFEFFFFFFFFFFFF7E &&& 0xFFFFFFFFFFFFFFFF = 0xFEFFFFFFFFFFFF7E ∧
    (colocar init_filas 8 0 0 0xFEFFFFFFFFFFFF7E inicio).llamadas_a_colocar ≤
      (colocar init_filas 8 0 0 0xFFFFFFFFFFFFFFFF inicio).llamadas_a_colocar ∧
    (colocar init_filas 8 0 0 0xFEFFFFFFFFFFFF7E inicio).soluciones ≤
      (colocar init_filas 8 0 0 0xFFFFFFFFFFFFFFFF inicio).soluciones :=
  ⟨by decide,
    (menos_casillas_menos_trabajo 0xFEFFFFFFFFFFFF7E 0xFFFFFFFFFFFFFFFF (by decide)).1,
    (menos_casillas_menos_trabajo 0xFEFFFFFFFFFFFF7E 0xFFFFFFFFFFFFFFFF (by decide)).2.1⟩

/-! ## Termination and depth of the recursion -/

theorem hijos_avanzan (filas : List Nat) (f h : Marco) (hh : h ∈ hijos filas f) :
    0 < f.faltan ∧ h.faltan = f.faltan - 1 ∧ f.siguiente < h.siguiente ∧ h.siguiente ≤ 64 := by
  obtain ⟨hf, i, h1, h2, _, rfl⟩ := (hijos_mem filas f h).1 hh
  exact ⟨hf, rfl, by show f.siguiente < i + 1; omega, by show i + 1 ≤ 64; omega⟩

theorem alcanzable_faltan (filas : List Nat) (m n : Nat) (f : Marco)
    (hf : Alcanzable filas (Marco.mk 8 0 0 m) n f) :
    f.faltan = 8 - (n : Int) ∧ 0 ≤ f.faltan := by
  induction hf with
  | inicial => exact ⟨by simp, by simp⟩
  | llamada _ hh ih =>
    obtain ⟨h1, h2, _, _⟩ := hijos_avanzan filas _ _ hh
    constructor
    · rw [h2, ih.1]
      push_cast
      ring
    · omega

/-- C13: `colocar` terminates for all arguments with `siguiente >= 0`: the checked program,
given `2 * (64 - siguiente) + 2` units of fuel or more, does not run out of fuel and returns
the state computed by `colocar`, and `colocar_fuel` returns that state too.  Every call made
by an invocation has `faltan` one less and `siguiente` larger, at most 64.  In every
invocation reached from `colocar (8, 0, 0, m)` through `n` nested calls `faltan` is `8 - n`,
between 0 and 8, so `n` is at most 8. -/
theorem colocar_termina (filas : List Nat) :
    (∀ (fuel : Nat) (faltan sig : Int) (col pos : Nat) (st : Estado), 0 ≤ sig →
      2 * (64 - sig.toNat) + 2 ≤ fuel →
      colocar_seguro filas fuel faltan sig col pos st =
        .ok (colocar filas faltan sig.toNat col pos st)) ∧
    (∀ (fuel : Nat) (faltan : Int) (sig col pos : Nat) (st : Estado),
      2 * (64 - sig) + 1 ≤ fuel →
      colocar_fuel filas fuel faltan sig col pos st = colocar filas faltan sig col pos st) ∧
    (∀ f h : Marco, h ∈ hijos filas f →
      h.faltan = f.faltan - 1 ∧ f.siguiente < h.siguiente ∧ h.siguiente ≤ 64) ∧
    (∀ (m n : Nat) (f : Marco), Alcanzable filas (Marco.mk 8 0 0 m) n f →
      0 ≤ f.faltan ∧ f.faltan ≤ 8 ∧ f.faltan = 8 - (n : Int) ∧ n ≤ 8) := by
  refine ⟨fun fuel faltan sig col pos st hs h =>
      colocar_seguro_ok filas fuel faltan sig col pos st hs h,
    fun fuel faltan sig col pos st h => colocar_fuel_estable filas fuel faltan sig col pos st h,
    fun f h hh => (hijos_avanzan filas f h hh).2, ?_⟩
  intro m n f hf
  obtain ⟨h1, h2⟩ := alcanzable_faltan filas m n f hf
  exact ⟨h2, by omega, h1, by omega⟩

/-! ## No undefined shift, no access outside the table -/

theorem error_bind {α β : Type} (e : Fallo) (f : α → Except Fallo β) :
    ((Except.error e : Except Fallo α) >>= f) = .error e := rfl

theorem seguro_solo_fuel (filas : List Nat) (fuel : Nat) :
    (∀ (faltan : Int) (sig col pos : Nat) (st : Estado) (e : Fallo),
      colocar_seguro filas fuel faltan (sig : Int) col pos st = .error e → e = .sin_fuel) ∧
    (∀ (faltan : Int) (sig col pos : Nat) (st : Estado) (e : Fallo),
      mientras_seguro filas fuel faltan (sig : Int) col pos st = .error e → e = .sin_fuel) := by
  induction fuel with
  | zero =>
    constructor
    · intro faltan sig col pos st e h
      rw [colocar_seguro] at h
      exact (Except.error.inj h).symm
    · intro faltan sig col pos st e h
      rw [mientras_seguro] at h
      exact (Except.error.inj h).symm
  | succ fuel ih =>
    obtain ⟨ihA, ihB⟩ := ih
    constructor
    · intro faltan sig col pos st e h
      rw [colocar_seguro] at h
      by_cases hf : faltan ≤ 0
      · simp only [if_pos hf] at h
        exact Except.noConfusion h
      · simp only [if_neg hf] at h
        exact ihB _ _ _ _ _ _ h
    · intro faltan sig col pos st e h
      rw [mientras_seguro] at h
      by_cases hs : sig < 64
      · have hs' : (sig : Int) < 64 := by omega
        have hcast : (sig : Int) + 1 = ((sig + 1 : Nat) : Int) := by push_cast; rfl
        rw [if_pos hs', desplazar_der_ok 63 pos sig (by omega), ok_bind, hcast] at h
        by_cases hb : (pos >>> sig) &&& 1 ≠ 0
        · simp only [if_pos hb] at h
          rw [desplazar_izq_ok 63 1 sig (by omega), ok_bind, nuevo_posibles_seguro_ok,
            ok_bind] at h
          cases hc : colocar_seguro filas fuel (faltan - 1) ((sig + 1 : Nat) : Int)
              (col ||| (1 <<< sig) % 2 ^ 64)
              (nuevo_posibles filas ((1 <<< sig) % 2 ^ 64) pos) st with
          | error e2 =>
            rw [hc, error_bind] at h
            rw [← Except.error.inj h]
            exact ihA _ _ _ _ _ _ hc
          | ok st2 =>
            rw [hc, ok_bind] at h
            exact ihB _ _ _ _ _ _ h
        · simp only [if_neg hb] at h
          rw [show (pure st : Except Fallo Estado) = Except.ok st from rfl, ok_bind] at h
          exact ihB _ _ _ _ _ _ h
      · have hs' : ¬ (sig : Int) < 64 := by omega
        rw [if_neg hs'] at h
        exact Except.noConfusion h

theorem seguro_negativo (filas : List Nat) (fuel : Nat) (faltan : Int) (col pos : Nat)
    (st : Estado) (hf : 0 < faltan) :
    colocar_seguro filas (fuel + 2) faltan (-1) col pos st = .error .desplazamiento := by
  rw [colocar_seguro, if_neg (by omega), mientras_seguro, if_pos (by norm_num)]
  rfl

/-- C18: no shift amount and no index leaves its range.  In `init_filas` every shift amount
lies between 0 and 56 (the checked function succeeds with the bound 56 and fails with 55);
in `imprimir_tablero` every shift amount lies between 0 and 63; and a run of the checked
`colocar` from any arguments with `siguiente >= 0`, with any fuel, never stops on a shift
outside `0 .. 63` or an index outside `0 .. 41`, while from `siguiente = -1` it does. -/
theorem sin_comportamiento_indefinido :
    init_filas_seguro 56 = .ok init_filas ∧
    init_filas_seguro 55 = .error .desplazamiento ∧
    (∀ t : Nat, imprimir_tablero_seguro 63 t = .ok (imprimir_tablero t)) ∧
    (∀ (y x : Nat), y < 8 → x < 8 →
      0 ≤ 63 - (8 * (y : Int) + (x : Int)) ∧ 63 - (8 * (y : Int) + (x : Int)) ≤ 63) ∧
    (∀ (filas : List Nat) (fuel : Nat) (faltan sig : Int) (col pos : Nat) (st : Estado)
        (e : Fallo), 0 ≤ sig →
      colocar_seguro filas fuel faltan sig col pos st = .error e → e = .sin_fuel) ∧
    (∀ (filas : List Nat) (fuel : Nat) (faltan : Int) (col pos : Nat) (st : Estado),
      0 < faltan →
      colocar_seguro filas (fuel + 2) faltan (-1) col pos st = .error .desplazamiento) ∧
    (∀ m ∈ tableros_iniciales,
      colocar_seguro init_filas 130 8 0 0 m inicio = .ok (colocar init_filas 8 0 0 m inicio)) := by
  refine ⟨init_filas_seguro_ok, init_filas_seguro_justo, imprimir_tablero_seguro_ok,
    fun y x hy hx => ⟨by omega, by omega⟩, ?_, seguro_negativo, ?_⟩
  · intro filas fuel faltan sig col pos st e hs h
    have hc : sig = (sig.toNat : Int) := (Int.toNat_of_nonneg hs).symm
    rw [hc] at h
    exact (seguro_solo_fuel filas fuel).1 _ _ _ _ _ _ h
  · intro m _
    exact colocar_seguro_ok init_filas 130 8 0 0 m inicio (le_refl _) (by decide)

/-! ## The invariant of the invocations -/

theorem cuenta_bits_finset (b : Nat) :
    cuenta_bits b = ((Finset.range 64).filter (fun j => b.testBit j = true)).card := by
  unfold cuenta_bits
  have hnd : ((List.range 64).filter (fun i => b.testBit i)).Nodup :=
    (List.nodup_range 64).filter _
  rw [← List.toFinset_card_of_nodup hnd]
  congr 1
  ext j
  simp only [List.mem_toFinset, List.mem_filter, List.mem_range, Finset.mem_filter,
    Finset.mem_range]

theorem cuenta_bits_or_pow (b i : Nat) (hi : i < 64) (hb : b.testBit i = false) :
    cuenta_bits (b ||| 2 ^ i) = cuenta_bits b + 1 := by
  rw [cuenta_bits_finset, cuenta_bits_finset]
  have hins : (Finset.range 64).filter (fun j => (b ||| 2 ^ i).testBit j = true) =
      insert i ((Finset.range 64).filter (fun j => b.testBit j = true)) := by
    ext j
    simp only [Finset.mem_filter, Finset.mem_range, Finset.mem_insert, Nat.testBit_or,
      Nat.testBit_two_pow, Bool.or_eq_true, decide_eq_true_eq]
    constructor
    · rintro ⟨h1, h2 | h2⟩
      · exact Or.inr ⟨h1, h2⟩
      · exact Or.inl h2.symm
    · rintro (h | ⟨h1, h2⟩)
      · exact ⟨h ▸ hi, Or.inr h.symm⟩
      · exact ⟨h1, Or.inl h2⟩
  rw [hins, Finset.card_insert_of_not_mem]
  simp only [Finset.mem_filter, Finset.mem_range, hb, Bool.false_eq_true, and_false,
    not_false_eq_true]

theorem marco_invariante (m : Nat) (hm : m < 2 ^ 64) (n : Nat) (f : Marco)
    (hf : Alcanzable init_filas (Marco.mk 8 0 0 m) n f) :
    f.posibles < 2 ^ 64 ∧ (cuenta_bits f.colocadas : Int) = 8 - f.faltan ∧
      (∀ j, f.colocadas.testBit j = true → j < f.siguiente ∧ m.testBit j = true) ∧
      (∀ j, f.posibles.testBit j = true → m.testBit j = true) ∧
      (∀ i j, f.colocadas.testBit i = true → f.posibles.testBit j = true →
        ataca i j = false) := by
  induction hf with
  | inicial =>
    refine ⟨hm, ?_, ?_, fun j hj => hj, ?_⟩
    · show ((cuenta_bits 0 : Nat) : Int) = 8 - 8
      rfl
    · intro j hj
      rw [Nat.zero_testBit] at hj
      exact absurd hj Bool.false_ne_true
    · intro i j hi
      rw [Nat.zero_testBit] at hi
      exact absurd hi Bool.false_ne_true
  | llamada _ hh ih =>
    rename_i k p h hp
    obtain ⟨hlt, hcount, hcol, hpos, hat⟩ := ih
    obtain ⟨hfal, i, h1, h2, h3, rfl⟩ := (hijos_mem init_filas p h).1 hh
    have hnp : ∀ j, (nuevo_posibles init_filas (2 ^ i) p.posibles).testBit j = true ↔
        p.posibles.testBit j = true ∧ ataca i j = false := by
      intro j
      rw [← uno_desplazado h2]
      exact nuevo_posibles_iff hlt h2 j
    have hci : p.colocadas.testBit i = false := by
      by_contra hc
      have := hat i i (by simpa using hc) h3
      rw [ataca_self] at this
      exact Bool.noConfusion this
    refine ⟨?_, ?_, ?_, ?_, ?_⟩
    · exact lt_of_le_of_lt (nuevo_posibles_le _ init_filas_length _ _) hlt
    · show (cuenta_bits (p.colocadas ||| 2 ^ i) : Int) = 8 - (p.faltan - 1)
      rw [cuenta_bits_or_pow _ i h2 hci]
      push_cast
      omega
    · intro j hj
      show j < i + 1 ∧ m.testBit j = true
      have hj' : (p.colocadas ||| 2 ^ i).testBit j = true := hj
      rw [Nat.testBit_or, Nat.testBit_two_pow, Bool.or_eq_true, decide_eq_true_eq] at hj'
      rcases hj' with hj' | hj'
      · exact ⟨by have := (hcol j hj').1; omega, (hcol j hj').2⟩
      · subst hj'
        exact ⟨by omega, hpos _ h3⟩
    · intro j hj
      exact hpos j ((hnp j).1 hj).1
    · intro a b ha hb
      have ha' : (p.colocadas ||| 2 ^ i).testBit a = true := ha
      have hb' := (hnp b).1 hb
      rw [Nat.testBit_or, Nat.testBit_two_pow, Bool.or_eq_true, decide_eq_true_eq] at ha'
      rcases ha' with ha' | ha'
      · exact hat a b ha' hb'.1
      · subst ha'
        exact hb'.2

theorem hijo_de_todas :
    Marco.mk 7 28 134217728 (nuevo_posibles init_filas (2 ^ 27) 0xFFFFFFFFFFFFFFFF) ∈
      hijos init_filas (Marco.mk 8 0 0 0xFFFFFFFFFFFFFFFF) := by
  rw [hijos_mem]
  exact ⟨by decide, 27, by decide, by decide, by decide, by
    simp only [Marco.mk.injEq, and_true, true_and]
    exact ⟨by norm_num, by norm_num⟩⟩

/-- C19: in every invocation `colocar (faltan, siguiente, colocadas, posibles)` reached
from `colocar (8, 0, 0, m)`, `m` a 64 bit word, `colocadas` has `8 - faltan` squares, all of
them below `siguiente` and in `m`; `posibles` is a part of `m`, below `2 ^ 64`; and no square
of `posibles` is a square of `colocadas` or shares a row, a column or a diagonal with one. -/
theorem invariante_de_colocar (m : Nat) (hm : m < 2 ^ 64) (n : Nat) (f : Marco)
    (hf : Alcanzable init_filas (Marco.mk 8 0 0 m) n f) :
    (cuenta_bits f.colocadas : Int) = 8 - f.faltan ∧
    (∀ j, f.colocadas.testBit j = true → j < f.siguiente ∧ m.testBit j = true) ∧
    f.posibles < 2 ^ 64 ∧
    (∀ j, f.posibles.testBit j = true → m.testBit j = true) ∧
    (∀ j, f.posibles.testBit j = true → f.colocadas.testBit j = false) ∧
    (∀ i j, f.colocadas.testBit i = true → f.posibles.testBit j = true →
      ¬ (i / 8 = j / 8 ∨ i % 8 = j % 8 ∨
        |((i / 8 : Nat) : Int) - ((j / 8 : Nat) : Int)| =
          |((i % 8 : Nat) : Int) - ((j % 8 : Nat) : Int)|)) := by
  obtain ⟨hlt, hcount, hcol, hpos, hat⟩ := marco_invariante m hm n f hf
  refine ⟨hcount, hcol, hlt, hpos, ?_, ?_⟩
  · intro j hj
    by_contra hc
    have := hat j j (by simpa using hc) hj
    rw [ataca_self] at this
    exact Bool.noConfusion this
  · intro i j hi hj
    exact (no_ataca_iff i j).1 (hat i j hi hj)

/-- C19 at the call made for the square 27 of the full board. -/
theorem invariante_de_colocar_witness :
    Alcanzable init_filas (Marco.mk 8 0 0 0xFFFFFFFFFFFFFFFF) 1
      (Marco.mk 7 28 134217728 (nuevo_posibles init_filas (2 ^ 27) 0xFFFFFFFFFFFFFFFF)) ∧
    (cuenta_bits 134217728 : Int) = 8 - 7 ∧
    nuevo_posibles init_filas (2 ^ 27) 0xFFFFFFFFFFFFFFFF < 2 ^ 64 :=
  ⟨Alcanzable.llamada Alcanzable.inicial hijo_de_todas,
    (invariante_de_colocar 0xFFFFFFFFFFFFFFFF (by decide) 1 _
      (Alcanzable.llamada Alcanzable.inicial hijo_de_todas)).1,
    (invariante_de_colocar 0xFFFFFFFFFFFFFFFF (by decide) 1 _
      (Alcanzable.llamada Alcanzable.inicial hijo_de_todas)).2.2.1⟩

/-! ## The order of the boards printed -/

theorem casillas_partidas (b s : Nat) (hs : s < 64) :
    casillas b =
      (List.range' 0 s).filter (fun i => b.testBit i) ++
        (if b.testBit s = true then [s] else []) ++
        (List.range' (s + 1) (63 - s)).filter (fun i => b.testBit i) := by
  unfold casillas
  have h1 : List.range 64 = List.range' 0 s ++ (s :: List.range' (s + 1) (63 - s)) := by
    have h64 : 64 = 63 - s + 1 + s := by omega
    have happ := List.range'_append_1 0 s (63 - s + 1)
    rw [Nat.zero_add, ← h64] at happ
    rw [List.range_eq_range', ← List.range'_succ, happ]
  rw [h1, List.filter_append, List.filter_cons, List.append_assoc]
  congr 1
  by_cases hb : b.testBit s = true
  · simp [hb]
  · simp [hb]

theorem filter_igual (a b s : Nat) (h : ∀ j, j < s → a.testBit j = b.testBit j) :
    (List.range' 0 s).filter (fun i => a.testBit i) =
      (List.range' 0 s).filter (fun i => b.testBit i) := by
  apply List.filter_congr
  intro j hj
  rw [List.mem_range'_1] at hj
  exact h j (by omega)

theorem orden_cruzado (a b s t : Nat) (hs : s < 64) (hprev : ∀ j, j < s → a.testBit j = b.testBit j)
    (ha : a.testBit s = true) (hb : b.testBit s = false) (ht1 : s < t) (ht2 : t < 64)
    (hbt : b.testBit t = true) :
    List.Lex (fun x y : Nat => x < y) (casillas a) (casillas b) := by
  rw [casillas_partidas a s hs, casillas_partidas b s hs, filter_igual a b s hprev, if_pos ha,
    if_neg (by rw [hb]; exact Bool.false_ne_true), List.append_nil, List.append_assoc]
  apply List.Lex.append_left
  have hmem : t ∈ (List.range' (s + 1) (63 - s)).filter (fun i => b.testBit i) := by
    rw [List.mem_filter, List.mem_range'_1]
    exact ⟨⟨by omega, by omega⟩, hbt⟩
  cases hR : (List.range' (s + 1) (63 - s)).filter (fun i => b.testBit i) with
  | nil =>
    rw [hR] at hmem
    exact absurd hmem (List.not_mem_nil t)
  | cons t0 R =>
    have h0 : t0 ∈ (List.range' (s + 1) (63 - s)).filter (fun i => b.testBit i) := by
      rw [hR]
      exact List.mem_cons_self t0 R
    rw [List.mem_filter, List.mem_range'_1] at h0
    exact List.Lex.rel (by show s < t0; omega)

theorem orden_desde (resto : Nat) :
    ∀ (faltan : Int) (col pos : Nat), resto ≤ 64 → 1 ≤ faltan →
      (∀ j, col.testBit j = true → j < 64 - resto) →
      (soluciones_desde init_filas resto faltan col pos).Pairwise
        (fun a b => List.Lex (fun x y : Nat => x < y) (casillas a) (casillas b)) := by
  induction resto with
  | zero => intro _ _ _ _ _ _; exact List.Pairwise.nil
  | succ resto ih =>
    intro faltan col pos hr hf hcol
    have hs64 : 63 - resto < 64 := by omega
    have hcols : col.testBit (63 - resto) = false := by
      by_contra hc
      have := hcol (63 - resto) (by simpa using hc)
      omega
    rw [soluciones_desde, uno_desplazado hs64, List.pairwise_append]
    refine ⟨?_, ih faltan col pos (by omega) hf (fun j hj => by have := hcol j hj; omega), ?_⟩
    · by_cases hbit : (pos >>> (63 - resto)) &&& 1 ≠ 0
      · rw [if_pos hbit]
        by_cases hl : faltan - 1 ≤ 0
        · rw [if_pos hl]
          exact List.pairwise_singleton _ _
        · rw [if_neg hl]
          apply ih (faltan - 1) _ _ (by omega) (by omega)
          intro j hj
          rw [Nat.testBit_or, Nat.testBit_two_pow, Bool.or_eq_true, decide_eq_true_eq] at hj
          rcases hj with hj | hj
          · have := hcol j hj
            omega
          · omega
      · rw [if_neg hbit]
        exact List.Pairwise.nil
    · intro a ha b hb
      obtain ⟨T, hcard, hmem, _, hbits⟩ :=
        desde_correcto resto faltan col pos (by omega) hf b hb
      have hTne : T.Nonempty := by
        apply Finset.card_pos.1
        have : (0 : Int) < (T.card : Int) := by omega
        exact_mod_cast this
      obtain ⟨t, ht⟩ := hTne
      obtain ⟨ht1, ht2, _⟩ := hmem t ht
      have hbj : ∀ j, j ≤ 63 - resto → b.testBit j = col.testBit j := by
        intro j hj
        have : j ∉ T := fun h => by
          have := (hmem j h).1
          omega
        rw [hbits j]
        simp [this]
      have hbt : b.testBit t = true := by
        rw [hbits t]
        simp [ht]
      have haj : (∀ j, j < 63 - resto → a.testBit j = col.testBit j) ∧
          a.testBit (63 - resto) = true := by
        by_cases hbit : (pos >>> (63 - resto)) &&& 1 ≠ 0
        · rw [if_pos hbit] at ha
          by_cases hl : faltan - 1 ≤ 0
          · rw [if_pos hl, List.mem_singleton] at ha
            subst ha
            constructor
            · intro j hj
              rw [Nat.testBit_or, Nat.testBit_two_pow]
              have : ¬ (63 - resto = j) := by omega
              simp [this]
            · rw [Nat.testBit_or, Nat.testBit_two_pow_self, Bool.or_true]
          · rw [if_neg hl] at ha
            obtain ⟨T2, _, hmem2, _, hbits2⟩ :=
              desde_correcto resto (faltan - 1) _ _ (by omega) (by omega) a ha
            constructor
            · intro j hj
              have hn : j ∉ T2 := fun h => by
                have := (hmem2 j h).1
                omega
              have : ¬ (63 - resto = j) := by omega
              rw [hbits2 j, Nat.testBit_or, Nat.testBit_two_pow]
              simp [this, hn]
            · rw [hbits2, Nat.testBit_or, Nat.testBit_two_pow_self]
              simp
        · rw [if_neg hbit] at ha
          exact absurd ha (List.not_mem_nil a)
      apply orden_cruzado a b (63 - resto) t hs64 _ haj.2 _ (by omega) ht2 hbt
      · intro j hj
        rw [haj.1 j hj, hbj j (by omega)]
      · rw [hbj _ (le_refl _), hcols]

theorem busqueda_ordenada (m : Nat) :
    (busqueda m).Pairwise
      (fun a b => List.Lex (fun x y : Nat => x < y) (casillas a) (casillas b)) := by
  rw [busqueda_eq]
  apply orden_desde 64 8 0 m (le_refl _) (by norm_num)
  intro j hj
  rw [Nat.zero_testBit] at hj
  exact absurd hj Bool.false_ne_true

theorem busqueda_nodup (m : Nat) : (busqueda m).Nodup := by
  apply (busqueda_ordenada m).imp
  intro a b h hab
  rw [hab] at h
  exact (List.Lex.isAsymm (fun x y : Nat => x < y)).asymm _ _ h h

/-- C20: the boards printed by `colocar (8, 0, 0, m)`, taken in the order in which they
are printed, increase strictly in the lexicographic order of their lists of squares, lowest
square first.  So no board is printed twice, and the solution counter ends at the number of
distinct boards printed. -/
theorem salida_en_orden (m : Nat) :
    (busqueda m).Pairwise
      (fun a b => List.Lex (fun x y : Nat => x < y) (casillas a) (casillas b)) ∧
    (busqueda m).Nodup ∧
    (colocar init_filas 8 0 0 m inicio).soluciones = ((busqueda m).toFinset.card : Int) := by
  refine ⟨busqueda_ordenada m, busqueda_nodup m, ?_⟩
  rw [List.toFinset_card_of_nodup (busqueda_nodup m), colocar_inicio, busqueda_eq]
  exact (agregar_inicio _ _).2.1

/-! ## `colocar_int` in terms of `llamadas_desde` and `soluciones_desde` -/

theorem a_int_rango (x : Int) : INT_MIN ≤ a_int x ∧ a_int x ≤ INT_MAX := by
  unfold a_int INT_MIN INT_MAX
  omega

theorem a_int_eq (x : Int) (h1 : INT_MIN ≤ x) (h2 : x ≤ INT_MAX) : a_int x = x := by
  unfold INT_MIN at h1
  unfold INT_MAX at h2
  unfold a_int
  omega

theorem incrementar_eq (x : Int) (h1 : INT_MIN ≤ x) (h2 : x < INT_MAX) :
    incrementar x = x + 1 := by
  unfold INT_MIN at h1
  unfold INT_MAX at h2
  unfold incrementar a_int
  omega

theorem sumar_int_add (a b : Nat) :
    ∀ x : Int, sumar_int x (a + b) = sumar_int (sumar_int x a) b := by
  induction a with
  | zero => intro x; rw [Nat.zero_add]; rfl
  | succ a ih =>
    intro x
    rw [Nat.succ_add]
    show sumar_int (incrementar x) (a + b) = sumar_int (sumar_int (incrementar x) a) b
    exact ih _

theorem sumar_int_uno (x : Int) : sumar_int x 1 = incrementar x := rfl

theorem sumar_int_eq (n : Nat) :
    ∀ x : Int, INT_MIN ≤ x → x + n ≤ INT_MAX → sumar_int x n = x + n := by
  induction n with
  | zero => intro x _ _; simp [sumar_int]
  | succ n ih =>
    intro x h1 h2
    have hx : incrementar x = x + 1 := by
      apply incrementar_eq x h1
      push_cast at h2
      omega
    show sumar_int (incrementar x) n = _
    rw [hx, ih (x + 1) (by omega) (by push_cast at h2; omega)]
    push_cast
    ring

theorem numerar_int_append (a b : List Nat) :
    ∀ s : Int, numerar_int s (a ++ b) = numerar_int s a ++ numerar_int (sumar_int s a.length) b := by
  induction a with
  | nil => intro s; rfl
  | cons x a ih =>
    intro s
    show (incrementar s, x) :: numerar_int (incrementar s) (a ++ b) =
      (incrementar s, x) :: (numerar_int (incrementar s) a ++
        numerar_int (sumar_int (incrementar s) a.length) b)
    rw [ih]

theorem numerar_int_map_snd (l : List Nat) :
    ∀ s : Int, (numerar_int s l).map Prod.snd = l := by
  induction l with
  | nil => intro s; rfl
  | cons x l ih => intro s; simp [numerar_int, ih]

theorem numerar_int_eq (l : List Nat) :
    ∀ s : Int, INT_MIN ≤ s → s + l.length ≤ INT_MAX → numerar_int s l = numerar s l := by
  induction l with
  | nil => intro s _ _; rfl
  | cons x l ih =>
    intro s h1 h2
    rw [List.length_cons] at h2
    push_cast at h2
    have hx : incrementar s = s + 1 := incrementar_eq s h1 (by omega)
    rw [numerar_int, numerar, hx, ih (s + 1) (by omega) (by omega)]

theorem agregar_int_cero (st : Estado) : agregar_int st 0 [] = st := by
  cases st
  simp [agregar_int, numerar_int, sumar_int]

theorem agregar_int_agregar (st : Estado) (n1 n2 : Nat) (l1 l2 : List Nat) :
    agregar_int (agregar_int st n1 l1) n2 l2 = agregar_int st (n1 + n2) (l1 ++ l2) := by
  cases st
  simp only [agregar_int, numerar_int_append, List.length_append, sumar_int_add,
    List.append_assoc]

theorem agregar_int_llamada (st : Estado) (n : Nat) (l : List Nat) :
    agregar_int { st with llamadas_a_colocar := incrementar st.llamadas_a_colocar } n l =
      agregar_int st (1 + n) l := by
  cases st
  simp only [agregar_int, sumar_int_add, sumar_int_uno]

/-- While no counter passes `INT_MAX`, the counters as `int` are the counters as integers. -/
theorem agregar_int_eq (st : Estado) (n : Nat) (l : List Nat) (h1 : en_rango st)
    (h2 : en_rango (agregar st n l)) : agregar_int st n l = agregar st n l := by
  obtain ⟨a1, _, a3, _⟩ := h1
  obtain ⟨_, b2, _, b4⟩ := h2
  simp only [agregar] at b2 b4
  simp only [agregar_int, agregar]
  rw [sumar_int_eq n _ a1 b2, sumar_int_eq l.length _ a3 b4, numerar_int_eq l _ a3 b4]

theorem fuel_int_ambos (filas : List Nat) (fuel : Nat) :
    (∀ (faltan : Int) (sig col pos : Nat) (st : Estado), 2 * (64 - sig) + 1 ≤ fuel →
      colocar_int_fuel filas fuel faltan sig col pos st =
        if faltan ≤ 0 then agregar_int st 1 [col]
        else agregar_int st (1 + llamadas_desde filas (64 - sig) faltan pos)
          (soluciones_desde filas (64 - sig) faltan col pos)) ∧
    (∀ (faltan : Int) (sig col pos : Nat) (st : Estado), 2 * (64 - sig) ≤ fuel →
      mientras_int_fuel filas fuel faltan sig col pos st =
        agregar_int st (llamadas_desde filas (64 - sig) faltan pos)
          (soluciones_desde filas (64 - sig) faltan col pos)) := by
  induction fuel with
  | zero =>
    refine ⟨fun _ _ _ _ _ h => absurd h (by omega), fun faltan sig col pos st h => ?_⟩
    have h0 : 64 - sig = 0 := by omega
    rw [h0]
    simp [mientras_int_fuel, llamadas_desde, soluciones_desde, agregar_int_cero]
  | succ fuel ih =>
    obtain ⟨ihA, ihB⟩ := ih
    constructor
    · intro faltan sig col pos st h
      rw [colocar_int_fuel]
      by_cases hf : faltan ≤ 0
      · simp only [if_pos hf]
        cases st
        rfl
      · simp only [if_neg hf]
        rw [ihB _ _ _ _ _ (by omega), agregar_int_llamada]
    · intro faltan sig col pos st h
      rw [mientras_int_fuel]
      by_cases hs : sig < 64
      · simp only [if_pos hs]
        obtain ⟨r, hr⟩ : ∃ r, 64 - sig = r + 1 := ⟨63 - sig, by omega⟩
        have hr1 : 63 - r = sig := by omega
        have hr2 : 64 - (sig + 1) = r := by omega
        rw [hr, llamadas_desde, soluciones_desde, hr1, ihB _ _ _ _ _ (by omega), hr2]
        by_cases hb : (pos >>> sig) &&& 1 ≠ 0
        · simp only [if_pos hb]
          rw [ihA _ _ _ _ _ (by omega), hr2]
          by_cases hf : faltan - 1 ≤ 0
          · simp only [if_pos hf, agregar_int_agregar]
          · simp only [if_neg hf, agregar_int_agregar]
        · simp only [if_neg hb, List.nil_append, Nat.zero_add]
      · simp only [if_neg hs]
        have h0 : 64 - sig = 0 := by omega
        rw [h0]
        simp [llamadas_desde, soluciones_desde, agregar_int_cero]

theorem colocar_int_fuel_eq (filas : List Nat) (fuel : Nat) (faltan : Int) (sig col pos : Nat)
    (st : Estado) (h : 2 * (64 - sig) + 1 ≤ fuel) :
    colocar_int_fuel filas fuel faltan sig col pos st =
      if faltan ≤ 0 then agregar_int st 1 [col]
      else agregar_int st (1 + llamadas_desde filas (64 - sig) faltan pos)
        (soluciones_desde filas (64 - sig) faltan col pos) :=
  (fuel_int_ambos filas fuel).1 faltan sig col pos st h

theorem colocar_int_eq (filas : List Nat) (faltan : Int) (sig col pos : Nat) (st : Estado) :
    colocar_int filas faltan sig col pos st =
      if faltan ≤ 0 then agregar_int st 1 [col]
      else agregar_int st (1 + llamadas_desde filas (64 - sig) faltan pos)
        (soluciones_desde filas (64 - sig) faltan col pos) :=
  colocar_int_fuel_eq filas _ faltan sig col pos st (le_refl _)

/-- More fuel than `colocar_int` supplies changes nothing. -/
theorem colocar_int_fuel_estable (filas : List Nat) (fuel : Nat) (faltan : Int)
    (sig col pos : Nat) (st : Estado) (h : 2 * (64 - sig) + 1 ≤ fuel) :
    colocar_int_fuel filas fuel faltan sig col pos st = colocar_int filas faltan sig col pos st := by
  rw [colocar_int_fuel_eq filas fuel faltan sig col pos st h, colocar_int_eq]

theorem reportados_int_eq (filas : List Nat) (faltan : Int) (sig col pos : Nat) (st : Estado) :
    reportados_int filas faltan sig col pos st =
      if faltan ≤ 0 then [col] else soluciones_desde filas (64 - sig) faltan col pos := by
  unfold reportados_int
  rw [colocar_int_eq]
  split
  · simp [agregar_int, numerar_int]
  · simp [agregar_int, numerar_int_map_snd]

/-- The boards printed do not depend on how the counters are kept. -/
theorem reportados_int_reportados (filas : List Nat) (faltan : Int) (sig col pos : Nat)
    (st st2 : Estado) :
    reportados_int filas faltan sig col pos st = reportados filas faltan sig col pos st2 := by
  rw [reportados_int_eq, reportados_eq]

/-- The model with the counters as integers is exact for a run in which no counter passes
`INT_MAX`: when the counters are `int` values at the start and the integers that `colocar`
ends with are `int` values, `colocar_int` ends in the same state. -/
theorem colocar_int_exacto (filas : List Nat) (faltan : Int) (sig col pos : Nat) (st : Estado)
    (h1 : en_rango st) (h2 : en_rango (colocar filas faltan sig col pos st)) :
    colocar_int filas faltan sig col pos st = colocar filas faltan sig col pos st := by
  rw [colocar_eq] at h2 ⊢
  rw [colocar_int_eq]
  by_cases hf : faltan ≤ 0
  · rw [if_pos hf] at h2 ⊢
    rw [if_pos hf]
    exact agregar_int_eq st _ _ h1 h2
  · rw [if_neg hf] at h2 ⊢
    rw [if_neg hf]
    exact agregar_int_eq st _ _ h1 h2

theorem desde_int_hijos (filas : List Nat) (faltan : Int) (col pos : Nat) :
    ∀ resto, resto ≤ 64 → ∀ st : Estado,
      (hijos_desde filas resto faltan col pos).foldl
          (fun st h => colocar_int filas h.faltan h.siguiente h.colocadas h.posibles st) st =
        agregar_int st (llamadas_desde filas resto faltan pos)
          (soluciones_desde filas resto faltan col pos) := by
  intro resto
  induction resto with
  | zero =>
    intro _ st
    simp [hijos_desde, llamadas_desde, soluciones_desde, agregar_int_cero]
  | succ resto ih =>
    intro hr st
    have hr2 : 64 - (63 - resto + 1) = resto := by omega
    rw [hijos_desde, llamadas_desde, soluciones_desde, List.foldl_append, ih (by omega)]
    by_cases hbit : (pos >>> (63 - resto)) &&& 1 ≠ 0
    · simp only [if_pos hbit, List.foldl_cons, List.foldl_nil]
      rw [colocar_int_eq, hr2]
      by_cases hf : faltan - 1 ≤ 0
      · simp only [if_pos hf, agregar_int_agregar]
      · simp only [if_neg hf, agregar_int_agregar]
    · simp only [if_neg hbit, List.foldl_nil, Nat.zero_add, List.nil_append]

/-- An invocation of `colocar_int` counts itself and then either prints its board or runs
`colocar_int` on each of its calls in turn. -/
theorem colocar_int_hijos (filas : List Nat) (faltan : Int) (sig col pos : Nat) (st : Estado) :
    colocar_int filas faltan sig col pos st =
      if faltan ≤ 0 then
        { llamadas_a_colocar := incrementar st.llamadas_a_colocar,
          soluciones := incrementar st.soluciones,
          salida := st.salida ++ [(incrementar st.soluciones, col)] }
      else
        (hijos filas (Marco.mk faltan sig col pos)).foldl
          (fun st h => colocar_int filas h.faltan h.siguiente h.colocadas h.posibles st)
          { st with llamadas_a_colocar := incrementar st.llamadas_a_colocar } := by
  unfold hijos
  by_cases hf : faltan ≤ 0
  · simp only [if_pos hf]
    rw [colocar_int_eq, if_pos hf]
    rfl
  · simp only [if_neg hf]
    rw [desde_int_hijos filas _ _ _ (64 - sig) (by omega), agregar_int_llamada, colocar_int_eq,
      if_neg hf]

/-- A search `colocar (8, 0, 0, m)` started with both counters at zero, as `main` starts
it, makes at most 118969 calls whatever the board `m` is, far below `INT_MAX`: there
`colocar_int` and `colocar` end in the same state. -/
theorem colocar_int_inicio (m : Nat) :
    colocar_int init_filas 8 0 0 m inicio = colocar init_filas 8 0 0 m inicio := by
  apply colocar_int_exacto
  · unfold en_rango INT_MIN INT_MAX inicio
    decide
  · have hm := desde_monotona 64 8 0 m 0xFFFFFFFFFFFFFFFF (le_refl _)
      (fun j hj _ => by rw [testBit_todas]; exact decide_eq_true hj)
    rw [desde_todas.1, desde_todas.2] at hm
    have hl : (encontradas tabla_todas).length = 92 := by decide!
    rw [hl] at hm
    rw [colocar_inicio]
    obtain ⟨a, b, _⟩ := agregar_inicio (1 + llamadas_desde init_filas 64 8 m)
      (soluciones_desde init_filas 64 8 0 m)
    unfold en_rango INT_MIN INT_MAX
    rw [a, b]
    omega

/-! ## Base case and recursion of `colocar` -/

/-- C15 as stated fails when a counter stands at `INT_MAX`: the call
`colocar (0, 0, 0x5, 0)` with both counters at 2147483647 leaves both at -2147483648 and
prints the board under the number -2147483648, so neither counter has gone up by one. -/
theorem colocar_caso_base_desborda :
    colocar_int init_filas 0 0 5 0 ⟨2147483647, 2147483647, []⟩ =
      ⟨-2147483648, -2147483648, [(-2147483648, 5)]⟩ ∧
    (colocar_int init_filas 0 0 5 0 ⟨2147483647, 2147483647, []⟩).llamadas_a_colocar ≠
      2147483647 + 1 ∧
    (colocar_int init_filas 0 0 5 0 ⟨2147483647, 2147483647, []⟩).soluciones ≠
      2147483647 + 1 := by
  decide!

/-- C15, amended: with the counters as `int`, a call of `colocar` with `faltan <= 0` makes
no call and runs no iteration of its loop (one unit of fuel is all it uses), keeps what was
printed and prints one solution, the board `colocadas` under the new value of the solution
counter.  When both counters are `int` values below `INT_MAX` it adds exactly one to the
call counter and exactly one to the solution counter, and the checked program does the same
in one step without a shift, whatever `siguiente` is.  A call with `faltan > 0` whose call
counter is an `int` value below `INT_MAX` adds exactly one to the call counter and then
only runs `colocar` on each of the calls of its loop. -/
theorem colocar_int_caso_base (filas : List Nat) (faltan : Int) (sig col pos : Nat)
    (st : Estado) :
    (faltan ≤ 0 →
      hijos filas (Marco.mk faltan sig col pos) = [] ∧
      colocar_int_fuel filas 1 faltan sig col pos st = colocar_int filas faltan sig col pos st ∧
      (colocar_int filas faltan sig col pos st).salida =
        st.salida ++ [((colocar_int filas faltan sig col pos st).soluciones, col)]) ∧
    (faltan ≤ 0 → INT_MIN ≤ st.llamadas_a_colocar → st.llamadas_a_colocar < INT_MAX →
        INT_MIN ≤ st.soluciones → st.soluciones < INT_MAX →
      colocar_int filas faltan sig col pos st =
        { llamadas_a_colocar := st.llamadas_a_colocar + 1, soluciones := st.soluciones + 1,
          salida := st.salida ++ [(st.soluciones + 1, col)] } ∧
      ∀ s : Int, colocar_seguro filas 1 faltan s col pos st =
        .ok (colocar_int filas faltan sig col pos st)) ∧
    (0 < faltan → INT_MIN ≤ st.llamadas_a_colocar → st.llamadas_a_colocar < INT_MAX →
      colocar_int filas faltan sig col pos st =
        (hijos filas (Marco.mk faltan sig col pos)).foldl
          (fun st h => colocar_int filas h.faltan h.siguiente h.colocadas h.posibles st)
          { st with llamadas_a_colocar := st.llamadas_a_colocar + 1 }) := by
  have hh := colocar_int_hijos filas faltan sig col pos st
  refine ⟨fun hf => ?_, fun hf a1 a2 b1 b2 => ?_, fun hf a1 a2 => ?_⟩
  · rw [if_pos hf] at hh
    refine ⟨?_, ?_, ?_⟩
    · unfold hijos
      rw [if_pos hf]
    · rw [hh, colocar_int_fuel, if_pos hf]
    · rw [hh]
  · rw [if_pos hf, incrementar_eq _ a1 a2, incrementar_eq _ b1 b2] at hh
    refine ⟨hh, fun s => ?_⟩
    rw [hh, colocar_seguro, if_pos hf]
  · rw [if_neg (by simp only [not_le]; exact hf), incrementar_eq _ a1 a2] at hh
    exact hh

theorem colocar_int_caso_base_witness :
    colocar_int init_filas 0 0 5 0 ⟨2147483646, 91, [(91, 3)]⟩ =
        ⟨2147483647, 92, [(91, 3), (92, 5)]⟩ ∧
      colocar_int init_filas 1 63 0 (2 ^ 63) ⟨2147483645, 0, []⟩ =
        (hijos init_filas (Marco.mk 1 63 0 (2 ^ 63))).foldl
          (fun st h => colocar_int init_filas h.faltan h.siguiente h.colocadas h.posibles st)
          ⟨2147483646, 0, []⟩ :=
  ⟨((colocar_int_caso_base init_filas 0 0 5 0 ⟨2147483646, 91, [(91, 3)]⟩).2.1 (by decide)
      (by decide) (by decide) (by decide) (by decide)).1,
    (colocar_int_caso_base init_filas 1 63 0 (2 ^ 63) ⟨2147483645, 0, []⟩).2.2 (by decide)
      (by decide) (by decide)⟩

/-! ## Determinism -/

/-- C17 as stated fails when a counter passes `INT_MAX` during the run: the call
`colocar (1, 62, 0, 0xC000000000000000)` makes three calls and prints two boards; started
with both counters at zero it leaves them at 3 and 2, started with both at 2147483646 it
leaves them at -2147483647 and -2147483648, so the increases differ, and the second
number it prints, -2147483648, is not the starting value plus two. -/
theorem colocar_determinista_desborda :
    colocar_int init_filas 1 62 0 0xC000000000000000 inicio =
      ⟨3, 2, [(1, 0x4000000000000000), (2, 0x8000000000000000)]⟩ ∧
    colocar_int init_filas 1 62 0 0xC000000000000000 ⟨2147483646, 2147483646, []⟩ =
      ⟨-2147483647, -2147483648,
        [(2147483647, 0x4000000000000000), (-2147483648, 0x8000000000000000)]⟩ ∧
    (colocar_int init_filas 1 62 0 0xC000000000000000 ⟨2147483646, 2147483646, []⟩).llamadas_a_colocar
        - 2147483646 ≠
      (colocar_int init_filas 1 62 0 0xC000000000000000 inicio).llamadas_a_colocar
        - inicio.llamadas_a_colocar ∧
    (colocar_int init_filas 1 62 0 0xC000000000000000 ⟨2147483646, 2147483646, []⟩).soluciones
        - 2147483646 ≠
      (colocar_int init_filas 1 62 0 0xC000000000000000 inicio).soluciones
        - inicio.soluciones := by
  decide!

/-- C17, amended: for fixed arguments and a fixed table, a run of `colocar` with the
counters as `int` prints the same boards in the same order whatever the state it starts
in, and keeps what was printed before.  For two runs in which no counter passes `INT_MAX`
(the counters are `int` values at the start, and so are the integers that they reach) the
amounts added to both counters are the same, the amount added to the solution counter is
the number of boards printed, and the numbers printed are the starting value of the
solution counter plus 1, 2, 3 and so on. -/
theorem colocar_int_determinista (filas : List Nat) (faltan : Int) (sig col pos : Nat)
    (st1 st2 : Estado) :
    reportados_int filas faltan sig col pos st1 = reportados_int filas faltan sig col pos st2 ∧
    (colocar_int filas faltan sig col pos st1).salida.take st1.salida.length = st1.salida ∧
    (en_rango st1 → en_rango (colocar filas faltan sig col pos st1) →
      en_rango st2 → en_rango (colocar filas faltan sig col pos st2) →
      (colocar_int filas faltan sig col pos st1).llamadas_a_colocar - st1.llamadas_a_colocar =
        (colocar_int filas faltan sig col pos st2).llamadas_a_colocar - st2.llamadas_a_colocar ∧
      (colocar_int filas faltan sig col pos st1).soluciones - st1.soluciones =
        (colocar_int filas faltan sig col pos st2).soluciones - st2.soluciones ∧
      (colocar_int filas faltan sig col pos st1).soluciones - st1.soluciones =
        (reportados_int filas faltan sig col pos st1).length ∧
      ((colocar_int filas faltan sig col pos st1).salida.drop st1.salida.length).map Prod.fst =
        (List.range (reportados_int filas faltan sig col pos st1).length).map
          (fun (k : Nat) => st1.soluciones + (k : Int) + 1)) := by
  refine ⟨?_, ?_, fun a1 a2 b1 b2 => ?_⟩
  · rw [reportados_int_eq, reportados_int_eq]
  · rw [colocar_int_eq]
    split <;> simp only [agregar_int, List.take_left']
  · rw [colocar_int_exacto _ _ _ _ _ _ a1 a2, colocar_int_exacto _ _ _ _ _ _ b1 b2,
      reportados_int_eq, colocar_eq, colocar_eq]
    by_cases hf : faltan ≤ 0
    · simp only [if_pos hf, agregar, numerar, List.length_singleton, Nat.cast_one,
        add_sub_cancel_left, List.drop_left', List.map_cons, List.map_nil,
        and_self, true_and]
      simp [List.range_succ]
    · simp only [if_neg hf, agregar, add_sub_cancel_left, List.drop_left',
        numerar_fst, and_self]

theorem colocar_int_determinista_witness :
    en_rango inicio ∧ en_rango (colocar init_filas 1 62 0 0xC000000000000000 inicio) ∧
      en_rango ⟨2147483644, 90, [(90, 7)]⟩ ∧
      en_rango (colocar init_filas 1 62 0 0xC000000000000000 ⟨2147483644, 90, [(90, 7)]⟩) ∧
      (colocar_int init_filas 1 62 0 0xC000000000000000 inicio).llamadas_a_colocar
          - inicio.llamadas_a_colocar =
        (colocar_int init_filas 1 62 0 0xC000000000000000
          ⟨2147483644, 90, [(90, 7)]⟩).llamadas_a_colocar - 2147483644 :=
  have h1 : en_rango inicio := by unfold en_rango; decide
  have h2 : en_rango (colocar init_filas 1 62 0 0xC000000000000000 inicio) := by
    unfold en_rango; decide!
  have h3 : en_rango ⟨2147483644, 90, [(90, 7)]⟩ := by unfold en_rango; decide
  have h4 : en_rango (colocar init_filas 1 62 0 0xC000000000000000
      ⟨2147483644, 90, [(90, 7)]⟩) := by
    unfold en_rango; decide!
  ⟨h1, h2, h3, h4,
    ((colocar_int_determinista init_filas 1 62 0 0xC000000000000000 inicio
      ⟨2147483644, 90, [(90, 7)]⟩).2.2 h1 h2 h3 h4).1⟩

end OchoDamas
